import Mathlib

/-!
Verification of the stacked-branches subsystem of the `glab` CLI: the stack
data model, the reordering engine (`matchBranchesToStack`), the MR topology
updater (`updateMRs`) and the sync engine (`stackSync`).

The repository ships only the tests of these functions
(`Test_matchBranchesToStack`, `Test_updateMRs`, `Test_stackSync`); the
implementations themselves are absent, so every operation below is modelled
from the specification (spec.md sections 3, 4.1, 4.2, 4.3, 6) with the
concrete argument shapes and API-identifier conventions pinned down by the
mock expectations in those tests.  Collaborators (git runner, merge-request
API) are injected as explicit environments, and each operation returns the
ordered trace of collaborator calls it performed together with the first
error encountered, mirroring the mock-based test style of the repository.
-/

set_option maxHeartbeats 1000000

namespace GlabStack

/-- Modelled from the spec: one node of a stack (spec section 3, `StackRef`).
`Prev`/`Next` hold the SHA of the neighbouring node or `""` at the ends;
`MR` holds the merge-request URL or `""` when no MR exists yet. -/
structure StackRef where
  SHA : String := ""
  Prev : String := ""
  Next : String := ""
  Branch : String := ""
  Description : String := ""
  MR : String := ""
deriving DecidableEq

/-- Modelled from the spec: a stack (spec section 3, `Stack`).  The Go
`map[SHA -> StackRef]` is modelled as a list of refs whose `SHA` keys are
unique (uniqueness is part of the well-formedness predicate below). -/
structure Stack where
  Title : String := ""
  Refs : List StackRef := []
deriving DecidableEq

/-- Modelled from the spec: map lookup by SHA key in the `Refs` map. -/
def findRef (refs : List StackRef) (sha : String) : Option StackRef :=
  refs.find? (fun r => r.SHA == sha)

/-- Modelled from the spec: lookup of the ref carrying a given branch name. -/
def refFromBranch (refs : List StackRef) (b : String) : Option StackRef :=
  refs.find? (fun r => r.Branch == b)

/-- Modelled from the spec: `First()` detects the unique ref with
`Prev == ""` (the head). -/
def Stack.first (s : Stack) : Option StackRef :=
  s.Refs.find? (fun r => r.Prev == "")

/-- Modelled from the spec: `Last()` detects the unique ref with
`Next == ""` (the tail). -/
def Stack.last (s : Stack) : Option StackRef :=
  s.Refs.find? (fun r => r.Next == "")

/-- Modelled from the spec: the head-to-tail walk underlying `Iter()`,
bounded by a fuel of `len(map)` steps as section 9 requires. -/
def iterAux (refs : List StackRef) : Nat → Option StackRef → List StackRef
  | _, none => []
  | 0, some _ => []
  | fuel + 1, some r =>
    r :: (if r.Next = "" then [] else iterAux refs fuel (findRef refs r.Next))

/-- Modelled from the spec: `Iter()` produces the refs in head-to-tail
order, walking `Next` links from the head, at most `len(Refs)` steps. -/
def Stack.iter (s : Stack) : List StackRef :=
  iterAux s.Refs s.Refs.length s.first

/-- Modelled from the spec: `Branches()` returns the ordered branch-name
sequence of the head-to-tail traversal. -/
def Stack.branches (s : Stack) : List String :=
  s.iter.map (·.Branch)

/-- Modelled from the spec: the data-model invariants of section 3, plus
the two structural facts that are implicit in the Go representation (`Refs`
is a map keyed by SHA, so SHAs are unique, and `""` denotes the absence of
a neighbour, so a real SHA is nonempty). -/
def Stack.WF (s : Stack) : Prop :=
  s.Refs ≠ [] ∧
  (s.Refs.map (·.SHA)).Nodup ∧
  (∀ r ∈ s.Refs, r.SHA ≠ "") ∧
  (s.Refs.map (·.Branch)).Nodup ∧
  s.Refs.countP (fun r => r.Prev == "") = 1 ∧
  s.Refs.countP (fun r => r.Next == "") = 1 ∧
  (∀ r ∈ s.Refs, r.Next ≠ "" →
    ∃ r2 ∈ s.Refs, findRef s.Refs r.Next = some r2 ∧ r2.Prev = r.SHA) ∧
  (∀ r ∈ s.Refs, r.Prev ≠ "" →
    ∃ r2 ∈ s.Refs, findRef s.Refs r.Prev = some r2 ∧ r2.Next = r.SHA) ∧
  s.iter.Perm s.Refs

instance (s : Stack) : Decidable s.WF := by
  unfold Stack.WF
  infer_instance

/-- Modelled from the spec: the error returned by the reordering engine
when the desired branch order is not a permutation of the stack's branch
names (spec section 4.1, `MissingBranches`). -/
inductive StackError where
  | missingBranches
deriving DecidableEq

/-- Head SHA of a ref list, `""` for the empty list; used to wire `Next`
links when relinking a chain. -/
def headSHA : List StackRef → String
  | [] => ""
  | r :: _ => r.SHA

/-- Modelled from the spec: reassign `Prev`/`Next` along a list of refs so
that traversal order equals the list order; every other field is copied
verbatim (spec section 4.1, Result). -/
def relink (p : String) : List StackRef → List StackRef
  | [] => []
  | r :: rest => { r with Prev := p, Next := headSHA rest } :: relink r.SHA rest

/-- Modelled from the spec: the reordering engine `Reorder` (named
`matchBranchesToStack` in the repository's tests).  Validates that the
desired branch order is a permutation of exactly the branch names present
in the stack, then rebuilds the link structure so that traversal order
equals the desired order, copying all content fields verbatim. -/
def matchBranchesToStack (stack : Stack) (branches : List String) :
    Except StackError Stack :=
  if branches.isPerm (stack.Refs.map (·.Branch)) then
    .ok { Title := stack.Title,
          Refs := relink "" (branches.filterMap (refFromBranch stack.Refs)) }
  else
    .error .missingBranches

end GlabStack

namespace GlabStack

/-! ### Stack model lemmas -/

/-- Whether consecutive elements of a ref list are linked: each element's
`Next` is the SHA of its successor and the last element's `Next` is `""`. -/
def isChain : List StackRef → Prop
  | [] => True
  | [r] => r.Next = ""
  | r :: r2 :: rest => r.Next = r2.SHA ∧ isChain (r2 :: rest)

lemma findRef_self {refs : List StackRef} (h : (refs.map (·.SHA)).Nodup)
    {r : StackRef} (hr : r ∈ refs) : findRef refs r.SHA = some r := by
  induction refs with
  | nil => cases hr
  | cons a tl ih =>
    rcases List.mem_cons.mp hr with rfl | hmem
    · simp [findRef]
    · have hnd : a.SHA ∉ tl.map (·.SHA) ∧ (tl.map (·.SHA)).Nodup := by
        rw [List.map_cons, List.nodup_cons] at h
        exact h
      have hne : ¬((fun x : StackRef => x.SHA == r.SHA) a) = true := by
        simp only [beq_iff_eq]
        intro he
        exact hnd.1 (he ▸ List.mem_map_of_mem (·.SHA) hmem)
      unfold findRef
      rw [List.find?_cons_of_neg (p := fun x : StackRef => x.SHA == r.SHA) tl hne]
      exact ih hnd.2 hmem

lemma refFromBranch_some {refs : List StackRef} {b : String} {r : StackRef}
    (h : refFromBranch refs b = some r) : r ∈ refs ∧ r.Branch = b := by
  refine ⟨List.mem_of_find?_eq_some h, ?_⟩
  have := List.find?_some h
  simpa using this

lemma refFromBranch_isSome {refs : List StackRef} {b : String}
    (h : ∃ r ∈ refs, r.Branch = b) : ∃ r, refFromBranch refs b = some r := by
  obtain ⟨r, hr, hb⟩ := h
  have : (refs.find? (fun x => x.Branch == b)).isSome = true :=
    List.find?_isSome.mpr ⟨r, hr, by simp [hb]⟩
  exact Option.isSome_iff_exists.mp this

lemma filterMap_refFromBranch_branches {refs : List StackRef} :
    ∀ {bs : List String}, (∀ b ∈ bs, ∃ r ∈ refs, r.Branch = b) →
    (bs.filterMap (refFromBranch refs)).map (·.Branch) = bs := by
  intro bs
  induction bs with
  | nil => intro _; rfl
  | cons b tl ih =>
    intro h
    obtain ⟨r, hr⟩ := refFromBranch_isSome (h b (List.mem_cons_self b tl))
    have hb := (refFromBranch_some hr).2
    have htl := ih (fun x hx => h x (List.mem_cons_of_mem _ hx))
    simp [List.filterMap_cons, hr, hb, htl]

lemma mem_filterMap_refFromBranch {refs : List StackRef} {bs : List String}
    {r : StackRef} (h : r ∈ bs.filterMap (refFromBranch refs)) : r ∈ refs := by
  obtain ⟨b, _, hfb⟩ := List.mem_filterMap.mp h
  exact (refFromBranch_some hfb).1

/-! ### Relink lemmas -/

lemma relink_map_content (p : String) (l : List StackRef) :
    (relink p l).map (fun r => (r.SHA, r.Branch, r.Description, r.MR)) =
    l.map (fun r => (r.SHA, r.Branch, r.Description, r.MR)) := by
  induction l generalizing p with
  | nil => rfl
  | cons r rest ih => simp [relink, ih]

lemma relink_map_sha (p : String) (l : List StackRef) :
    (relink p l).map (·.SHA) = l.map (·.SHA) := by
  induction l generalizing p with
  | nil => rfl
  | cons r rest ih => simp [relink, ih]

lemma relink_map_branch (p : String) (l : List StackRef) :
    (relink p l).map (·.Branch) = l.map (·.Branch) := by
  induction l generalizing p with
  | nil => rfl
  | cons r rest ih => simp [relink, ih]

lemma relink_isChain (p : String) (l : List StackRef) : isChain (relink p l) := by
  induction l generalizing p with
  | nil => trivial
  | cons r rest ih =>
    cases rest with
    | nil => simp [relink, headSHA, isChain]
    | cons r2 rest2 =>
      have := ih (p := r.SHA)
      simp only [relink, headSHA] at this ⊢
      exact ⟨rfl, this⟩

lemma relink_countP_prev_zero {p : String} (hp : p ≠ "") {l : List StackRef}
    (hne : ∀ r ∈ l, r.SHA ≠ "") :
    (relink p l).countP (fun r => r.Prev == "") = 0 := by
  induction l generalizing p with
  | nil => rfl
  | cons r rest ih =>
    have hr : r.SHA ≠ "" := hne r (List.mem_cons_self r rest)
    have htl := ih (p := r.SHA) hr (fun x hx => hne x (List.mem_cons_of_mem _ hx))
    simp [relink, List.countP_cons, htl, hp]

lemma relink_countP_prev {l : List StackRef} (hl : l ≠ [])
    (hne : ∀ r ∈ l, r.SHA ≠ "") :
    (relink "" l).countP (fun r => r.Prev == "") = 1 := by
  cases l with
  | nil => exact absurd rfl hl
  | cons r rest =>
    have hr : r.SHA ≠ "" := hne r (List.mem_cons_self r rest)
    have htl := relink_countP_prev_zero (p := r.SHA) hr
      (fun x hx => hne x (List.mem_cons_of_mem _ hx))
    simp [relink, List.countP_cons, htl]

lemma relink_countP_next {p : String} {l : List StackRef} (hl : l ≠ [])
    (hne : ∀ r ∈ l, r.SHA ≠ "") :
    (relink p l).countP (fun r => r.Next == "") = 1 := by
  induction l generalizing p with
  | nil => exact absurd rfl hl
  | cons r rest ih =>
    cases rest with
    | nil => simp [relink, headSHA, List.countP_cons]
    | cons r2 rest2 =>
      have h2 : r2.SHA ≠ "" := hne r2 (List.mem_cons_of_mem _ (List.mem_cons_self r2 rest2))
      have htl := ih (p := r.SHA) (List.cons_ne_nil r2 rest2)
        (fun x hx => hne x (List.mem_cons_of_mem _ hx))
      have hstep : relink p (r :: r2 :: rest2) =
          { r with Prev := p, Next := r2.SHA } :: relink r.SHA (r2 :: rest2) := rfl
      rw [hstep, List.countP_cons, htl]
      simp [h2]

/-! ### Traversal lemma: a relinked chain is traversed in list order. -/

lemma iterAux_chain {L : List StackRef} :
    ∀ {t : List StackRef}, isChain t →
    (∀ r ∈ t, findRef L r.SHA = some r) →
    (∀ r ∈ t, r.SHA ≠ "") →
    ∀ {fuel : Nat}, t.length ≤ fuel →
    iterAux L fuel t.head? = t := by
  intro t
  induction t with
  | nil =>
    intro _ _ _ fuel _
    cases fuel <;> rfl
  | cons r t' ih =>
    intro hch hfind hne fuel hfuel
    cases fuel with
    | zero => simp at hfuel
    | succ f =>
      cases t' with
      | nil =>
        have hnext : r.Next = "" := hch
        simp [iterAux, hnext]
      | cons r2 t'' =>
        obtain ⟨hn, hch'⟩ := hch
        have h2 : r2.SHA ≠ "" :=
          hne r2 (List.mem_cons_of_mem _ (List.mem_cons_self r2 t''))
        have hfind2 : findRef L r2.SHA = some r2 :=
          hfind r2 (List.mem_cons_of_mem _ (List.mem_cons_self r2 t''))
        have hrec := ih hch'
          (fun x hx => hfind x (List.mem_cons_of_mem _ hx))
          (fun x hx => hne x (List.mem_cons_of_mem _ hx))
          (show (r2 :: t'').length ≤ f by
            simpa using Nat.le_of_succ_le_succ hfuel)
        simp only [List.head?] at hrec
        simp [iterAux, hn, h2, hfind2, hrec]

end GlabStack

namespace GlabStack

/-- C1: for every stack satisfying the data-model invariants and every
permutation of its branch names, the reordering engine succeeds and yields
a stack whose head-to-tail traversal order equals the permutation, with
exactly one head (`Prev = ""`), exactly one tail (`Next = ""`), all SHAs
of the input present exactly once, and every ref's SHA, Branch,
Description and MR fields equal verbatim to the input ref with that SHA. -/
theorem reorder_permutation_correct (s : Stack) (order : List String)
    (hwf : s.WF) (hperm : order.Perm (s.Refs.map (·.Branch))) :
    ∃ s' : Stack, matchBranchesToStack s order = .ok s' ∧
      s'.iter.map (·.Branch) = order ∧
      s'.Refs.countP (fun r => r.Prev == "") = 1 ∧
      s'.Refs.countP (fun r => r.Next == "") = 1 ∧
      (s'.Refs.map (·.SHA)).Perm (s.Refs.map (·.SHA)) ∧
      (s'.Refs.map (·.SHA)).Nodup ∧
      (∀ r' ∈ s'.Refs, ∃ r ∈ s.Refs,
        r.SHA = r'.SHA ∧ r.Branch = r'.Branch ∧
        r.Description = r'.Description ∧ r.MR = r'.MR) := by
  obtain ⟨hnil, hsha, hne0, hbr, -, -, -, -, -⟩ := hwf
  have hisPerm : order.isPerm (s.Refs.map (·.Branch)) = true :=
    List.isPerm_iff.mpr hperm
  have hok : matchBranchesToStack s order =
      .ok { Title := s.Title,
            Refs := relink "" (order.filterMap (refFromBranch s.Refs)) } := by
    simp [matchBranchesToStack, hisPerm]
  have hmemb : ∀ b ∈ order, ∃ r ∈ s.Refs, r.Branch = b := by
    intro b hb
    have hb2 : b ∈ s.Refs.map (·.Branch) := hperm.mem_iff.mp hb
    obtain ⟨r, hr, hrb⟩ := List.mem_map.mp hb2
    exact ⟨r, hr, hrb⟩
  have hmapbr : (order.filterMap (refFromBranch s.Refs)).map (·.Branch) = order :=
    filterMap_refFromBranch_branches hmemb
  have hsub : ∀ r ∈ order.filterMap (refFromBranch s.Refs), r ∈ s.Refs :=
    fun _ hr => mem_filterMap_refFromBranch hr
  have hordn : order.Nodup := hperm.nodup_iff.mpr hbr
  have hordedn : (order.filterMap (refFromBranch s.Refs)).Nodup := by
    apply List.Nodup.of_map (·.Branch)
    rw [hmapbr]
    exact hordn
  have hordsha : ((order.filterMap (refFromBranch s.Refs)).map (·.SHA)).Nodup := by
    refine List.Nodup.map_on ?_ hordedn
    intro x hx y hy hxy
    exact List.inj_on_of_nodup_map hsha (hsub x hx) (hsub y hy) hxy
  have hordne : ∀ r ∈ order.filterMap (refFromBranch s.Refs), r.SHA ≠ "" :=
    fun r hr => hne0 r (hsub r hr)
  have hordnil : order.filterMap (refFromBranch s.Refs) ≠ [] := by
    intro h0
    have ho : order = [] := by rw [← hmapbr, h0]; rfl
    rw [ho] at hperm
    have := List.map_eq_nil_iff.mp (List.Perm.eq_nil hperm.symm)
    exact hnil this
  have hLsha : (relink "" (order.filterMap (refFromBranch s.Refs))).map (·.SHA) =
      (order.filterMap (refFromBranch s.Refs)).map (·.SHA) := relink_map_sha _ _
  have hLshan : ((relink "" (order.filterMap (refFromBranch s.Refs))).map (·.SHA)).Nodup := by
    rw [hLsha]; exact hordsha
  have hLne : ∀ r ∈ relink "" (order.filterMap (refFromBranch s.Refs)), r.SHA ≠ "" := by
    intro r hr
    have h1 : r.SHA ∈ (relink "" (order.filterMap (refFromBranch s.Refs))).map (·.SHA) :=
      List.mem_map_of_mem _ hr
    rw [hLsha] at h1
    obtain ⟨r0, hr0, he⟩ := List.mem_map.mp h1
    rw [← he]
    exact hordne r0 hr0
  have hfind : ∀ r ∈ relink "" (order.filterMap (refFromBranch s.Refs)),
      findRef (relink "" (order.filterMap (refFromBranch s.Refs))) r.SHA = some r :=
    fun _ hr => findRef_self hLshan hr
  have hchain : isChain (relink "" (order.filterMap (refFromBranch s.Refs))) :=
    relink_isChain _ _
  have hiter : (Stack.mk s.Title (relink "" (order.filterMap (refFromBranch s.Refs)))).iter =
      relink "" (order.filterMap (refFromBranch s.Refs)) := by
    obtain ⟨r0, rest0, hL⟩ : ∃ r0 rest0,
        order.filterMap (refFromBranch s.Refs) = r0 :: rest0 := by
      cases h0 : order.filterMap (refFromBranch s.Refs) with
      | nil => exact absurd h0 hordnil
      | cons a l => exact ⟨a, l, rfl⟩
    have hfirst : (Stack.mk s.Title (relink "" (order.filterMap (refFromBranch s.Refs)))).first =
        (relink "" (order.filterMap (refFromBranch s.Refs))).head? := by
      unfold Stack.first
      rw [hL]
      show (({ r0 with Prev := "", Next := headSHA rest0 } :: relink r0.SHA rest0).find?
        (fun r => r.Prev == "")) = _
      rw [List.find?_cons_of_pos]
      · rfl
      · rfl
    unfold Stack.iter
    rw [hfirst]
    exact iterAux_chain hchain hfind hLne (le_refl _)
  refine ⟨_, hok, ?_, ?_, ?_, ?_, ?_, ?_⟩
  · rw [hiter, relink_map_branch, hmapbr]
  · exact relink_countP_prev hordnil hordne
  · exact relink_countP_next hordnil hordne
  · have hpermRefs : (order.filterMap (refFromBranch s.Refs)).Perm s.Refs := by
      refine List.Subperm.perm_of_length_le (List.subperm_of_subset hordedn hsub) ?_
      have h1 : (order.filterMap (refFromBranch s.Refs)).length = order.length := by
        conv_rhs => rw [← hmapbr]
        rw [List.length_map]
      have h2 : order.length = (s.Refs.map (·.Branch)).length := hperm.length_eq
      rw [h1, h2, List.length_map]
    show (relink "" (order.filterMap (refFromBranch s.Refs))).map (·.SHA) |>.Perm _
    rw [hLsha]
    exact hpermRefs.map (·.SHA)
  · exact hLshan
  · intro r' hr'
    have h1 : (r'.SHA, r'.Branch, r'.Description, r'.MR) ∈
        (relink "" (order.filterMap (refFromBranch s.Refs))).map
          (fun r => (r.SHA, r.Branch, r.Description, r.MR)) :=
      List.mem_map_of_mem _ hr'
    rw [relink_map_content] at h1
    obtain ⟨r, hrord, heq⟩ := List.mem_map.mp h1
    refine ⟨r, hsub r hrord, ?_⟩
    have h2 := Prod.mk.injEq .. ▸ heq
    simp only [Prod.mk.injEq] at h2
    exact ⟨h2.1, h2.2.1, h2.2.2.1, h2.2.2.2⟩

/-- C5: a desired branch order whose name set differs from the stack's
branch set (an extra name, a missing name, duplicated names, or any list
of the wrong cardinality) makes the reordering engine fail with the
`MissingBranches` error; the model is a pure function, so the input stack
is returned to the caller untouched. -/
theorem reorder_missing_branches_error (s : Stack) (order : List String)
    (hbr : (s.Refs.map (·.Branch)).Nodup)
    (h : (∃ b ∈ order, b ∉ s.Refs.map (·.Branch)) ∨
         (∃ b ∈ s.Refs.map (·.Branch), b ∉ order) ∨
         ¬ order.Nodup ∨
         order.length ≠ (s.Refs.map (·.Branch)).length) :
    matchBranchesToStack s order = .error .missingBranches := by
  have hnp : ¬ order.Perm (s.Refs.map (·.Branch)) := by
    intro hp
    rcases h with ⟨b, hb, hnb⟩ | ⟨b, hb, hnb⟩ | hnd | hlen
    · exact hnb (hp.mem_iff.mp hb)
    · exact hnb (hp.mem_iff.mpr hb)
    · exact hnd (hp.nodup_iff.mpr hbr)
    · exact hlen hp.length_eq
  have hfalse : order.isPerm (s.Refs.map (·.Branch)) = false := by
    rw [← Bool.not_eq_true]
    intro ht
    exact hnp (List.isPerm_iff.mp ht)
  simp [matchBranchesToStack, hfalse]

end GlabStack

namespace GlabStack

/-- The three-node fixture of `Test_matchBranchesToStack` ("basic
situation"). -/
def reorderFixture : Stack :=
  { Refs := [
      { SHA := "123", Prev := "", Next := "456", Branch := "Branch1", Description := "blah1" },
      { SHA := "456", Prev := "123", Next := "789", Branch := "Branch2", Description := "blah2" },
      { SHA := "789", Prev := "456", Next := "", Branch := "Branch3", Description := "blah3" }] }

/-- The desired order of the "basic situation" test case. -/
def reorderFixtureOrder : List String := ["Branch2", "Branch3", "Branch1"]

theorem reorder_permutation_correct_witness :
    reorderFixture.WF ∧
    reorderFixtureOrder.Perm (reorderFixture.Refs.map (·.Branch)) ∧
    ∃ s' : Stack, matchBranchesToStack reorderFixture reorderFixtureOrder = .ok s' ∧
      s'.iter.map (·.Branch) = reorderFixtureOrder ∧
      s'.Refs.countP (fun r => r.Prev == "") = 1 ∧
      s'.Refs.countP (fun r => r.Next == "") = 1 ∧
      (s'.Refs.map (·.SHA)).Perm (reorderFixture.Refs.map (·.SHA)) ∧
      (s'.Refs.map (·.SHA)).Nodup ∧
      (∀ r' ∈ s'.Refs, ∃ r ∈ reorderFixture.Refs,
        r.SHA = r'.SHA ∧ r.Branch = r'.Branch ∧
        r.Description = r'.Description ∧ r.MR = r'.MR) :=
  ⟨by decide, by decide,
    reorder_permutation_correct reorderFixture reorderFixtureOrder
      (by decide) (by decide)⟩

theorem reorder_missing_branches_error_witness :
    (reorderFixture.Refs.map (·.Branch)).Nodup ∧
    (["Branch2", "Branch1"].length ≠ (reorderFixture.Refs.map (·.Branch)).length) ∧
    matchBranchesToStack reorderFixture ["Branch2", "Branch1"] =
      .error .missingBranches :=
  ⟨by decide, by decide,
    reorder_missing_branches_error reorderFixture ["Branch2", "Branch1"]
      (by decide)
      (Or.inr (Or.inr (Or.inr (by decide))))⟩

end GlabStack

namespace GlabStack

/-! ### The merge-request API collaborator and the MR topology updater -/

/-- Modelled from the spec: the subset of a GitLab merge-request record
this subsystem reads (spec section 6).  `projectID` is the numeric
project id carried by the record, distinct from the `namespace/project`
path string used to address list and get calls. -/
structure MergeRequest where
  iid : Nat := 0
  projectID : Nat := 0
  sourceBranch : String := ""
  targetBranch : String := ""
  state : String := ""
deriving DecidableEq

/-- One call to the merge-request API collaborator (spec section 6). -/
inductive ApiCall where
  | listMRs (project sourceBranch state : String)
  | getMR (project : String) (iid : Nat)
  | updateMR (projectID iid : Nat) (targetBranch : String)
  | createMR (project sourceBranch targetBranch title description : String)
deriving DecidableEq

/-- Modelled from the spec: the injected merge-request API collaborator
(spec section 6).  Each operation either answers or fails with an error
message. -/
structure ApiEnv where
  listOpenMRsBySource : String → String → Except String (List MergeRequest)
  getMergeRequest : String → Nat → Except String MergeRequest
  updateMergeRequest : Nat → Nat → String → Except String MergeRequest
  createMergeRequest : String → String → String → String → String →
    Except String MergeRequest

/-- The merge-request API collaborator never fails. -/
def ApiEnv.Total (api : ApiEnv) : Prop :=
  (∀ p b, ∃ v, api.listOpenMRsBySource p b = .ok v) ∧
  (∀ p i, ∃ v, api.getMergeRequest p i = .ok v) ∧
  (∀ p i t, ∃ v, api.updateMergeRequest p i t = .ok v) ∧
  (∀ p s t u d, ∃ v, api.createMergeRequest p s t u d = .ok v)

/-- Stateful left-to-right iteration with early abort: run `f` on each
element in order, concatenating the produced events, and stop at the
first step that reports an error (spec section 7, propagation policy). -/
def runSteps {σ α ε : Type} (f : σ → α → List ε × σ × Option String) :
    σ → List α → List ε × σ × Option String
  | s, [] => ([], s, none)
  | s, x :: xs =>
    match f s x with
    | (ev, s', some e) => (ev, s', some e)
    | (ev, s', none) =>
      let rest := runSteps f s' xs
      (ev ++ rest.1, rest.2.1, rest.2.2)

/-- Modelled from the spec: a node's computed target branch in a stack —
the branch of the ref keyed by the node's `Prev`, or the configured base
branch when the node is the head (spec section 4.2). -/
def newTargetOf (s : Stack) (base : String) (n : StackRef) : Option String :=
  if n.Prev = "" then some base else (findRef s.Refs n.Prev).map (·.Branch)

/-- Modelled from the spec: the old target branch, computed the same way
from the node with the same SHA in the old stack (spec section 4.2). -/
def oldTargetOf (s : Stack) (base : String) (sha : String) : Option String :=
  (findRef s.Refs sha).bind (fun r => newTargetOf s base r)

/-- Modelled from the spec: processing of one node by the MR topology
updater (spec section 4.2).  When the computed target changed and the
node is bound to an MR: list the node's open merge requests by source
branch (filtered to the open state), fetch the first hit's full record,
and update that record's target branch — the update is addressed by the
record's numeric project id, as the mock expectations of `Test_updateMRs`
pin down.  A node with no MR, an unchanged target, or no open MR found
is skipped without error. -/
def updateNode (api : ApiEnv) (project base : String) (old new : Stack)
    (n : StackRef) : List ApiCall × Option String :=
  match newTargetOf new base n, oldTargetOf old base n.SHA with
  | some newT, some oldT =>
    if newT ≠ oldT ∧ n.MR ≠ "" then
      match api.listOpenMRsBySource project n.Branch with
      | .error e => ([.listMRs project n.Branch "opened"], some e)
      | .ok [] => ([.listMRs project n.Branch "opened"], none)
      | .ok (m :: _) =>
        match api.getMergeRequest project m.iid with
        | .error e =>
          ([.listMRs project n.Branch "opened", .getMR project m.iid], some e)
        | .ok mr =>
          match api.updateMergeRequest mr.projectID mr.iid newT with
          | .error e =>
            ([.listMRs project n.Branch "opened", .getMR project m.iid,
              .updateMR mr.projectID mr.iid newT], some e)
          | .ok _ =>
            ([.listMRs project n.Branch "opened", .getMR project m.iid,
              .updateMR mr.projectID mr.iid newT], none)
    else ([], none)
  | _, _ => ([], some "stack ref not found")

/-- The per-node step of `updateMRs` in the shape `runSteps` expects. -/
def updateStep (api : ApiEnv) (project base : String) (old new : Stack) :
    Unit → StackRef → List ApiCall × Unit × Option String :=
  fun _ n => ((updateNode api project base old new n).1, (),
              (updateNode api project base old new n).2)

/-- Modelled from the spec: the MR topology updater `UpdateMRs` (spec
section 4.2).  Iterates the new stack head to tail, reconciling each
node's merge-request target branch, and aborts at the first API failure.
Returns the ordered list of API calls performed and the first error. -/
def updateMRs (api : ApiEnv) (project base : String) (old new : Stack) :
    List ApiCall × Option String :=
  let res := runSteps (updateStep api project base old new) () new.iter
  (res.1, res.2.2)

/-- The API calls the MR topology updater performs for one node when no
API call fails: nothing for a skipped node, the list call alone when no
open MR is found, and list-get-update when the target must move. -/
def updateNodeCallsOk (api : ApiEnv) (project base : String) (old new : Stack)
    (n : StackRef) : List ApiCall :=
  match newTargetOf new base n, oldTargetOf old base n.SHA with
  | some newT, some oldT =>
    if newT ≠ oldT ∧ n.MR ≠ "" then
      match api.listOpenMRsBySource project n.Branch with
      | .error _ => []
      | .ok [] => [.listMRs project n.Branch "opened"]
      | .ok (m :: _) =>
        match api.getMergeRequest project m.iid with
        | .error _ => []
        | .ok mr =>
          [.listMRs project n.Branch "opened", .getMR project m.iid,
           .updateMR mr.projectID mr.iid newT]
    else []
  | _, _ => []

end GlabStack

namespace GlabStack

lemma Stack.WF.refs_ne_nil {s : Stack} (h : s.WF) : s.Refs ≠ [] := h.1

lemma Stack.WF.sha_nodup {s : Stack} (h : s.WF) : (s.Refs.map (·.SHA)).Nodup := h.2.1

lemma Stack.WF.branch_nodup {s : Stack} (h : s.WF) :
    (s.Refs.map (·.Branch)).Nodup := h.2.2.2.1

lemma Stack.WF.one_head {s : Stack} (h : s.WF) :
    s.Refs.countP (fun r => r.Prev == "") = 1 := h.2.2.2.2.1

lemma Stack.WF.prev_resolves {s : Stack} (h : s.WF) :
    ∀ r ∈ s.Refs, r.Prev ≠ "" →
    ∃ r2 ∈ s.Refs, findRef s.Refs r.Prev = some r2 ∧ r2.Next = r.SHA :=
  h.2.2.2.2.2.2.2.1

lemma Stack.WF.iter_perm {s : Stack} (h : s.WF) : s.iter.Perm s.Refs :=
  h.2.2.2.2.2.2.2.2

lemma Stack.WF.mem_refs_of_mem_iter {s : Stack} (h : s.WF) {n : StackRef}
    (hn : n ∈ s.iter) : n ∈ s.Refs := h.iter_perm.mem_iff.mp hn

lemma runSteps_ok {σ α ε : Type} {f : σ → α → List ε × σ × Option String}
    {g : α → List ε} {u : σ → α → σ} :
    ∀ {l : List α} {s : σ},
    (∀ s' x, x ∈ l → f s' x = (g x, u s' x, none)) →
    runSteps f s l = (l.flatMap g, l.foldl u s, none) := by
  intro xs
  induction xs with
  | nil =>
    intro s _
    simp [runSteps]
  | cons x xs ih =>
    intro s h
    have hx := h s x (List.mem_cons_self x xs)
    have hrest := ih (s := u s x) (fun s' y hy => h s' y (List.mem_cons_of_mem _ hy))
    simp [runSteps, hx, hrest, List.flatMap_cons]

lemma runSteps_cons {σ α ε : Type} (f : σ → α → List ε × σ × Option String)
    (s : σ) (x : α) (xs : List α) :
    runSteps f s (x :: xs) =
      match f s x with
      | (ev, s', some e) => (ev, s', some e)
      | (ev, s', none) =>
        (ev ++ (runSteps f s' xs).1, (runSteps f s' xs).2.1,
         (runSteps f s' xs).2.2) := by
  simp [runSteps]

lemma runSteps_cons_err {σ α ε : Type} {f : σ → α → List ε × σ × Option String}
    {s s' : σ} {x : α} {ev : List ε} {e : String} (xs : List α)
    (hfx : f s x = (ev, s', some e)) :
    runSteps f s (x :: xs) = (ev, s', some e) := by
  rw [runSteps_cons, hfx]

lemma runSteps_cons_none {σ α ε : Type} {f : σ → α → List ε × σ × Option String}
    {s s' : σ} {x : α} {ev : List ε} (xs : List α)
    (hfx : f s x = (ev, s', none)) :
    runSteps f s (x :: xs) =
      (ev ++ (runSteps f s' xs).1, (runSteps f s' xs).2.1,
       (runSteps f s' xs).2.2) := by
  rw [runSteps_cons, hfx]

lemma runSteps_abort {σ α ε : Type} {f : σ → α → List ε × σ × Option String} :
    ∀ {xs : List α} {s0 : σ} {tr : List ε} {s1 : σ},
    runSteps f s0 xs = (tr, s1, none) →
    ∀ {y : α} {z : List α} {ty : List ε} {s2 : σ} {e : String},
    f s1 y = (ty, s2, some e) →
    runSteps f s0 (xs ++ y :: z) = (tr ++ ty, s2, some e) := by
  intro xs
  induction xs with
  | nil =>
    intro s0 tr s1 h y zs ty s2 e hy
    have h' : ([] : List ε) = tr ∧ s0 = s1 ∧ (none : Option String) = none := by
      simpa [runSteps, Prod.ext_iff] using h
    obtain ⟨h1, h2, -⟩ := h'
    subst h1
    subst h2
    simpa using runSteps_cons_err zs hy
  | cons x xs ih =>
    intro s0 tr s1 h y zs ty s2 e hy
    rcases hfx : f s0 x with ⟨ev, s', e'⟩
    cases e' with
    | some err =>
      rw [runSteps_cons_err xs hfx] at h
      simp [Prod.ext_iff] at h
    | none =>
      rw [runSteps_cons_none xs hfx] at h
      rcases hrest : runSteps f s' xs with ⟨tr', s1', e2⟩
      rw [hrest] at h
      simp only [Prod.mk.injEq] at h
      obtain ⟨h1, h2, h3⟩ := h
      subst h3
      subst h2
      subst h1
      have hrec := ih hrest (z := zs) hy
      have hgoal := runSteps_cons_none (xs ++ y :: zs) hfx
      rw [show (x :: xs) ++ y :: zs = x :: (xs ++ y :: zs) from rfl, hgoal, hrec]
      simp [List.append_assoc]

end GlabStack

namespace GlabStack

lemma newTargetOf_isSome {s : Stack} (hwf : s.WF) {n : StackRef}
    (hn : n ∈ s.Refs) (base : String) : (newTargetOf s base n).isSome := by
  unfold newTargetOf
  by_cases hp : n.Prev = ""
  · simp [hp]
  · obtain ⟨r2, -, hfind, -⟩ := hwf.prev_resolves n hn hp
    simp [hp, hfind]

lemma oldTargetOf_isSome {s : Stack} (hwf : s.WF) {m : StackRef}
    (hm : m ∈ s.Refs) (base : String) : (oldTargetOf s base m.SHA).isSome := by
  unfold oldTargetOf
  rw [findRef_self hwf.sha_nodup hm]
  simpa using newTargetOf_isSome hwf hm base

lemma updateNode_ok {api : ApiEnv} (hapi : api.Total) (project base : String)
    {old new : Stack} {n : StackRef}
    (hnew : (newTargetOf new base n).isSome)
    (hold : (oldTargetOf old base n.SHA).isSome) :
    updateNode api project base old new n =
      (updateNodeCallsOk api project base old new n, none) := by
  obtain ⟨tN, htN⟩ := Option.isSome_iff_exists.mp hnew
  obtain ⟨tO, htO⟩ := Option.isSome_iff_exists.mp hold
  unfold updateNode updateNodeCallsOk
  rw [htN, htO]
  dsimp only
  by_cases hc : tN ≠ tO ∧ n.MR ≠ ""
  · rw [if_pos hc, if_pos hc]
    obtain ⟨ms, hms⟩ := hapi.1 project n.Branch
    rw [hms]
    cases ms with
    | nil => rfl
    | cons m rest =>
      dsimp only
      obtain ⟨mr, hmr⟩ := hapi.2.1 project m.iid
      rw [hmr]
      dsimp only
      obtain ⟨mr2, hmr2⟩ := hapi.2.2.1 mr.projectID mr.iid tN
      rw [hmr2]
  · rw [if_neg hc, if_neg hc]

/-- Under a total API and well-formed stacks of identical SHA content,
the MR topology updater succeeds and its call trace is the head-to-tail
concatenation of the per-node call lists. -/
lemma updateMRs_trace {api : ApiEnv} (hapi : api.Total) (project base : String)
    {old new : Stack} (hwfo : old.WF) (hwfn : new.WF)
    (hshas : ∀ n ∈ new.Refs, ∃ m ∈ old.Refs, m.SHA = n.SHA) :
    updateMRs api project base old new =
      (new.iter.flatMap (updateNodeCallsOk api project base old new), none) := by
  unfold updateMRs
  have h := runSteps_ok
    (f := updateStep api project base old new)
    (g := updateNodeCallsOk api project base old new)
    (u := fun s _ => s) (l := new.iter) (s := ())
    ?_
  · rw [h]
  · intro s' x hx
    unfold updateStep
    have hxr : x ∈ new.Refs := hwfn.mem_refs_of_mem_iter hx
    obtain ⟨m, hm, hms⟩ := hshas x hxr
    have hold : (oldTargetOf old base x.SHA).isSome := by
      rw [← hms]
      exact oldTargetOf_isSome hwfo hm base
    have := updateNode_ok hapi project base (newTargetOf_isSome hwfn hxr base) hold
    simp [this]

end GlabStack

namespace GlabStack

/-- C2: for well-formed stacks of identical ref content and a total API,
the MR topology updater succeeds, its trace is the head-to-tail
concatenation of per-node call lists, and per node: nothing is issued
when the node has no MR or its computed target did not change; when the
target changed for a node with an MR, the open merge request is listed by
source branch filtered to the open state, and exactly one update carrying
the newly computed target is issued for the fetched record — or the node
is skipped without error when no open MR is found. -/
theorem updateMRs_calls_spec (api : ApiEnv) (project base : String)
    (old new : Stack) (hapi : api.Total) (hwfo : old.WF) (hwfn : new.WF)
    (hcontent : ∀ n ∈ new.Refs, ∃ m ∈ old.Refs,
      m.SHA = n.SHA ∧ m.Branch = n.Branch ∧
      m.Description = n.Description ∧ m.MR = n.MR) :
    updateMRs api project base old new =
      (new.iter.flatMap (updateNodeCallsOk api project base old new), none) ∧
    ∀ n ∈ new.iter, ∀ tN tO, newTargetOf new base n = some tN →
      oldTargetOf old base n.SHA = some tO →
      ((n.MR = "" → updateNodeCallsOk api project base old new n = []) ∧
       (tN = tO → updateNodeCallsOk api project base old new n = []) ∧
       (tN ≠ tO → n.MR ≠ "" →
         (api.listOpenMRsBySource project n.Branch = .ok [] →
           updateNodeCallsOk api project base old new n =
             [.listMRs project n.Branch "opened"]) ∧
         (∀ m ms, api.listOpenMRsBySource project n.Branch = .ok (m :: ms) →
           ∃ mr, api.getMergeRequest project m.iid = .ok mr ∧
             updateNodeCallsOk api project base old new n =
               [.listMRs project n.Branch "opened", .getMR project m.iid,
                .updateMR mr.projectID mr.iid tN]))) := by
  constructor
  · exact updateMRs_trace hapi project base hwfo hwfn
      (fun n hn => (hcontent n hn).imp (fun m hm => ⟨hm.1, hm.2.1⟩))
  · intro n hn tN tO htN htO
    refine ⟨?_, ?_, ?_⟩
    · intro hmr
      unfold updateNodeCallsOk
      rw [htN, htO]
      dsimp only
      rw [if_neg (by simp [hmr])]
    · intro heq
      unfold updateNodeCallsOk
      rw [htN, htO]
      dsimp only
      rw [if_neg (by simp [heq])]
    · intro hne hmr
      constructor
      · intro hlist
        unfold updateNodeCallsOk
        rw [htN, htO]
        dsimp only
        rw [if_pos ⟨hne, hmr⟩, hlist]
      · intro m ms hlist
        obtain ⟨mr, hget⟩ := hapi.2.1 project m.iid
        refine ⟨mr, hget, ?_⟩
        unfold updateNodeCallsOk
        rw [htN, htO]
        dsimp only
        rw [if_pos ⟨hne, hmr⟩, hlist]
        dsimp only
        rw [hget]

lemma mem_updateNodeCallsOk {api : ApiEnv} {project base : String}
    {old new : Stack} {n : StackRef} {c : ApiCall}
    (hc : c ∈ updateNodeCallsOk api project base old new n) :
    c = .listMRs project n.Branch "opened" ∨
    (∃ m ms, api.listOpenMRsBySource project n.Branch = .ok (m :: ms) ∧
       c = .getMR project m.iid) ∨
    (∃ m ms mr tN, api.listOpenMRsBySource project n.Branch = .ok (m :: ms) ∧
       api.getMergeRequest project m.iid = .ok mr ∧
       newTargetOf new base n = some tN ∧
       c = .updateMR mr.projectID mr.iid tN) := by
  unfold updateNodeCallsOk at hc
  rcases htN : newTargetOf new base n with - | tN <;> rw [htN] at hc
  · simp at hc
  rcases htO : oldTargetOf old base n.SHA with - | tO <;> rw [htO] at hc
  · simp at hc
  dsimp only at hc
  by_cases hcond : tN ≠ tO ∧ n.MR ≠ ""
  · rw [if_pos hcond] at hc
    rcases hlist : api.listOpenMRsBySource project n.Branch with e | ms <;>
      rw [hlist] at hc
    · simp at hc
    cases ms with
    | nil =>
      left
      simpa using hc
    | cons m rest =>
      dsimp only at hc
      rcases hget : api.getMergeRequest project m.iid with e | mr <;>
        rw [hget] at hc
      · simp at hc
      dsimp only at hc
      have hc' : c = ApiCall.listMRs project n.Branch "opened" ∨
          c = ApiCall.getMR project m.iid ∨
          c = ApiCall.updateMR mr.projectID mr.iid tN := by
        simpa using hc
      rcases hc' with h1 | h2 | h3
      · exact Or.inl h1
      · exact Or.inr (Or.inl ⟨m, rest, rfl, h2⟩)
      · exact Or.inr (Or.inr ⟨m, rest, mr, tN, rfl, hget, rfl, h3⟩)
  · rw [if_neg hcond] at hc
    simp at hc

/-- C9: in the MR topology updater's trace, every list and get call
addresses the project by its path string, while every update call
addresses it by the numeric project id of the merge-request record
fetched just before it, not by the path string used for the lookup. -/
theorem updateMRs_project_identifier (api : ApiEnv) (project base : String)
    (old new : Stack) (hapi : api.Total) (hwfo : old.WF) (hwfn : new.WF)
    (hcontent : ∀ n ∈ new.Refs, ∃ m ∈ old.Refs,
      m.SHA = n.SHA ∧ m.Branch = n.Branch ∧
      m.Description = n.Description ∧ m.MR = n.MR) :
    (∀ p b u, ApiCall.listMRs p b u ∈ (updateMRs api project base old new).1 →
       p = project ∧ u = "opened") ∧
    (∀ p i, ApiCall.getMR p i ∈ (updateMRs api project base old new).1 →
       p = project) ∧
    (∀ d i t, ApiCall.updateMR d i t ∈ (updateMRs api project base old new).1 →
       ∃ n ∈ new.iter, ∃ m ms mr,
         api.listOpenMRsBySource project n.Branch = .ok (m :: ms) ∧
         api.getMergeRequest project m.iid = .ok mr ∧
         d = mr.projectID ∧ i = mr.iid) := by
  have htr := updateMRs_trace hapi project base hwfo hwfn
    (fun n hn => (hcontent n hn).imp (fun m hm => ⟨hm.1, hm.2.1⟩))
  rw [htr]
  refine ⟨?_, ?_, ?_⟩
  · intro p b u hmem
    obtain ⟨n, -, hcn⟩ := List.mem_flatMap.mp hmem
    rcases mem_updateNodeCallsOk hcn with h | ⟨m, ms, -, h⟩ | ⟨m, ms, mr, tN, -, -, -, h⟩
    · rw [ApiCall.listMRs.injEq] at h
      exact ⟨h.1, h.2.2⟩
    · simp at h
    · simp at h
  · intro p i hmem
    obtain ⟨n, -, hcn⟩ := List.mem_flatMap.mp hmem
    rcases mem_updateNodeCallsOk hcn with h | ⟨m, ms, -, h⟩ | ⟨m, ms, mr, tN, -, -, -, h⟩
    · simp at h
    · rw [ApiCall.getMR.injEq] at h
      exact h.1
    · simp at h
  · intro d i t hmem
    obtain ⟨n, hn, hcn⟩ := List.mem_flatMap.mp hmem
    rcases mem_updateNodeCallsOk hcn with h | ⟨m, ms, -, h⟩ | ⟨m, ms, mr, tN, hl, hg, -, h⟩
    · simp at h
    · simp at h
    · rw [ApiCall.updateMR.injEq] at h
      exact ⟨n, hn, m, ms, mr, hl, hg, h.1, h.2.1⟩

end GlabStack

namespace GlabStack

/-- A two-node old stack in the style of `Test_updateMRs`: Branch1 is the
head and Branch2 its dependant, both bound to merge requests. -/
def updateOldFixture : Stack :=
  { Refs := [
      { SHA := "1", Prev := "", Next := "2", Branch := "Branch1",
        MR := "http://gitlab.com/stack_guy/stackproject/-/merge_requests/1" },
      { SHA := "2", Prev := "1", Next := "", Branch := "Branch2",
        MR := "http://gitlab.com/stack_guy/stackproject/-/merge_requests/2" }] }

/-- The same two refs in the reversed order. -/
def updateNewFixture : Stack :=
  { Refs := [
      { SHA := "2", Prev := "", Next := "1", Branch := "Branch2",
        MR := "http://gitlab.com/stack_guy/stackproject/-/merge_requests/2" },
      { SHA := "1", Prev := "2", Next := "", Branch := "Branch1",
        MR := "http://gitlab.com/stack_guy/stackproject/-/merge_requests/1" }] }

/-- A total merge-request API answering like the gomock expectations of
`Test_updateMRs`: one open MR per source branch, project id 3. -/
def updateApiFixture : ApiEnv :=
  { listOpenMRsBySource := fun _ b =>
      .ok [{ iid := if b = "Branch1" then 1 else 2, projectID := 3,
             sourceBranch := b, state := "opened" }],
    getMergeRequest := fun _ i => .ok { iid := i, projectID := 3 },
    updateMergeRequest := fun _ i t =>
      .ok { iid := i, projectID := 3, targetBranch := t },
    createMergeRequest := fun _ s t _ _ =>
      .ok { iid := 42, projectID := 3, sourceBranch := s, targetBranch := t } }

lemma updateApiFixture_total : updateApiFixture.Total :=
  ⟨fun _ _ => ⟨_, rfl⟩, fun _ _ => ⟨_, rfl⟩, fun _ _ _ => ⟨_, rfl⟩,
   fun _ _ _ _ _ => ⟨_, rfl⟩⟩

theorem updateMRs_calls_spec_witness :
    updateMRs updateApiFixture "stack_guy/stackproject" "main"
        updateOldFixture updateNewFixture =
      (updateNewFixture.iter.flatMap
        (updateNodeCallsOk updateApiFixture "stack_guy/stackproject" "main"
          updateOldFixture updateNewFixture), none) :=
  (updateMRs_calls_spec updateApiFixture "stack_guy/stackproject" "main"
    updateOldFixture updateNewFixture updateApiFixture_total
    (by decide) (by decide) (by decide)).1

theorem updateMRs_project_identifier_witness :
    ∃ n ∈ updateNewFixture.iter, ∃ m ms mr,
      updateApiFixture.listOpenMRsBySource "stack_guy/stackproject" n.Branch =
        .ok (m :: ms) ∧
      updateApiFixture.getMergeRequest "stack_guy/stackproject" m.iid = .ok mr ∧
      3 = mr.projectID ∧ 2 = mr.iid :=
  (updateMRs_project_identifier updateApiFixture "stack_guy/stackproject" "main"
    updateOldFixture updateNewFixture updateApiFixture_total
    (by decide) (by decide) (by decide)).2.2 3 2 "main" (by decide)

end GlabStack

namespace GlabStack

/-! ### The git runner collaborator and the sync engine -/

/-- One observable collaborator call of the sync engine: a git command
(the exact argument vector of spec section 6) or a merge-request API
call. -/
inductive Event where
  | git (args : List String)
  | api (c : ApiCall)
deriving DecidableEq

/-- Modelled from the spec: the injectable git runner (spec section 6).
`run` executes an argument vector; `status` is the output of
`status -uno` probed while the given branch is checked out (the probe is
the only command whose answer depends on the current branch). -/
structure GitEnv where
  run : List String → Except String String
  status : String → Except String String

/-- The git runner never fails. -/
def GitEnv.Total (genv : GitEnv) : Prop :=
  (∀ a, ∃ o, genv.run a = .ok o) ∧ (∀ b, ∃ o, genv.status b = .ok o)

/-- Modelled from the spec: the status output marking a branch with no
pending reconciliation (`Test_stackSync` feeds this constant verbatim as
the probe output). -/
def NothingToCommit : String := "nothing to commit, working tree clean"

/-- Modelled from the spec: the status output marking a branch behind its
upstream. -/
def BranchIsBehind : String := "Your branch is behind"

/-- Modelled from the spec: the status output marking a branch that has
diverged from its upstream. -/
def BranchHasDiverged : String := "have diverged"

/-- Modelled from the spec: the per-node state machine states (spec
section 4.3). -/
inductive SyncState where
  | nothingToCommit
  | branchIsBehind
  | branchHasDiverged
deriving DecidableEq

/-- Modelled from the spec: classification of the single `status -uno`
probe into the three per-node states (spec section 4.3). -/
def classifyStatus (out : String) : SyncState :=
  if out = BranchIsBehind then .branchIsBehind
  else if out = BranchHasDiverged then .branchHasDiverged
  else .nothingToCommit

/-- Modelled from the spec: extraction of the default branch from the
output of `remote show origin` (`Test_stackSync` answers the query with
"HEAD branch: main" and expects "main"). -/
def parseDefaultBranch (out : String) : String :=
  if out.startsWith "HEAD branch: " then out.drop 13 else out

/-- Split a character list at its first newline: `none` when it contains
no newline, otherwise the characters before it and the characters after
it. -/
def splitFirstLine : List Char → Option (List Char × List Char)
  | [] => none
  | c :: rest =>
    if c = '\n' then some ([], rest)
    else
      match splitFirstLine rest with
      | none => none
      | some (a, b) => some (c :: a, b)

/-- Drop one leading newline character, if present. -/
def dropLeadingNewline : List Char → List Char
  | '\n' :: rest => rest
  | s => s

/-- Modelled from the spec: derivation of a merge-request title and body
from a node's description (spec section 4.3): a single-line description
becomes the title with an empty body; otherwise the first line is the
title and the remainder, its leading newline removed, is the body
(`Test_stackSync` expects body "description, bark!" for the description
"multi line desc\n\ndescription, bark!"). -/
def splitDescription (d : String) : String × String :=
  match splitFirstLine d.data with
  | none => (d, "")
  | some (t, rest) => (String.mk t, String.mk (dropLeadingNewline rest))

/-- State threaded by the sync engine down the node walk: whether a final
safety push is needed and the resolved base branch, once resolved. -/
structure SyncSt where
  pushNeeded : Bool := false
  base : Option String := none
deriving DecidableEq

/-- Run one git command, emit its event, and abort on failure. -/
def runGit (genv : GitEnv) (args : List String) (st : SyncSt)
    (k : String → List Event × SyncSt × Option String) :
    List Event × SyncSt × Option String :=
  match genv.run args with
  | .error e => ([.git args], st, some e)
  | .ok out =>
    let rest := k out
    (.git args :: rest.1, rest.2.1, rest.2.2)

/-- Run the status probe for a branch, emit its event, abort on failure. -/
def runStatus (genv : GitEnv) (b : String) (st : SyncSt)
    (k : String → List Event × SyncSt × Option String) :
    List Event × SyncSt × Option String :=
  match genv.status b with
  | .error e => ([.git ["status", "-uno"]], st, some e)
  | .ok out =>
    let rest := k out
    (.git ["status", "-uno"] :: rest.1, rest.2.1, rest.2.2)

/-- Sequence two abortable computations. -/
def seqSteps (a : List Event × SyncSt × Option String)
    (k : SyncSt → List Event × SyncSt × Option String) :
    List Event × SyncSt × Option String :=
  match a with
  | (ev, st, some e) => (ev, st, some e)
  | (ev, st, none) =>
    let rest := k st
    (ev ++ rest.1, rest.2.1, rest.2.2)

/-- Modelled from the spec: the state-driven step of one node (spec
section 4.3): a fast-forward pull when the branch is behind; checkout of
the stack's tail branch followed by a fork-point, ref-updating rebase of
the node's branch when it has diverged; nothing otherwise.  Only the
diverged state sets the push-needed flag: in `Test_stackSync` the
scenarios whose nodes are merely behind expect no final force push. -/
def stateStep (genv : GitEnv) (tailBranch : String) (st : SyncSt)
    (n : StackRef) : SyncState → List Event × SyncSt × Option String
  | .nothingToCommit => ([], st, none)
  | .branchIsBehind =>
    runGit genv ["pull"] st (fun _ => ([], st, none))
  | .branchHasDiverged =>
    runGit genv ["checkout", tailBranch] { st with pushNeeded := true } (fun _ =>
      runGit genv ["rebase", "--fork-point", "--update-refs", n.Branch]
        { st with pushNeeded := true } (fun _ =>
        ([], { st with pushNeeded := true }, none)))

/-- Modelled from the spec: the push step of one node (spec section 4.3):
nothing when the node already has an MR; otherwise, for the head node
first resolve the base branch — the explicit override when configured,
else the remote's default branch queried with `remote show origin` — and
verify it exists on the remote with `ls-remote --exit-code --heads`;
then push the node's branch with upstream tracking. -/
def pushStep (genv : GitEnv) (override : String) (st : SyncSt)
    (n : StackRef) : List Event × SyncSt × Option String :=
  if n.MR = "" then
    if n.Prev = "" then
      if override ≠ "" then
        runGit genv ["ls-remote", "--exit-code", "--heads", "origin", override]
          { st with base := some override } (fun _ =>
          runGit genv ["push", "--set-upstream", "origin", n.Branch]
            { st with base := some override } (fun _ =>
            ([], { st with base := some override }, none)))
      else
        runGit genv ["remote", "show", "origin"] st (fun out =>
          runGit genv ["ls-remote", "--exit-code", "--heads", "origin",
              parseDefaultBranch out]
            { st with base := some (parseDefaultBranch out) } (fun _ =>
            runGit genv ["push", "--set-upstream", "origin", n.Branch]
              { st with base := some (parseDefaultBranch out) } (fun _ =>
              ([], { st with base := some (parseDefaultBranch out) }, none))))
    else
      runGit genv ["push", "--set-upstream", "origin", n.Branch] st (fun _ =>
        ([], st, none))
  else ([], st, none)

/-- Modelled from the spec: processing of one node by the sync engine
(spec section 4.3): checkout, the single status probe, the state-driven
step, then the push step. -/
def syncNode (genv : GitEnv) (tailBranch override : String) (st : SyncSt)
    (n : StackRef) : List Event × SyncSt × Option String :=
  runGit genv ["checkout", n.Branch] st (fun _ =>
    runStatus genv n.Branch st (fun out =>
      seqSteps (stateStep genv tailBranch st n (classifyStatus out))
        (fun st1 => pushStep genv override st1 n)))

/-- The target branch of a merge request created for a node: the previous
node's branch, or the resolved base branch for the head. -/
def createTargetOf (stack : Stack) (b : Option String) (n : StackRef) : String :=
  if n.Prev = "" then b.getD ""
  else ((findRef stack.Refs n.Prev).map (·.Branch)).getD ""

/-- Modelled from the spec: creation of the merge request of one node
still lacking one (spec section 4.3): source is the node's branch, target
the previous node's branch or the resolved base branch for the head, with
title and body derived from the node's description. -/
def createStep (api : ApiEnv) (project : String) (stack : Stack)
    (b : Option String) (st : SyncSt) (n : StackRef) :
    List Event × SyncSt × Option String :=
  match api.createMergeRequest project n.Branch (createTargetOf stack b n)
      (splitDescription n.Description).1 (splitDescription n.Description).2 with
  | .error e =>
    ([.api (.createMR project n.Branch (createTargetOf stack b n)
       (splitDescription n.Description).1 (splitDescription n.Description).2)],
     st, some e)
  | .ok _ =>
    ([.api (.createMR project n.Branch (createTargetOf stack b n)
       (splitDescription n.Description).1 (splitDescription n.Description).2)],
     st, none)

/-- The stack's tail branch name. -/
def tailBranchOf (stack : Stack) : String :=
  ((stack.last).map (·.Branch)).getD ""

/-- Modelled from the spec: the sync engine `Sync` (spec section 4.3):
fetch origin, walk the stack strictly head to tail running each node's
state machine and push step, then create a merge request for every node
still lacking one, and finally issue one force-with-lease push naming all
stack branches when the push-needed flag was set.  The first git or API
failure aborts the run. -/
def stackSync (genv : GitEnv) (api : ApiEnv) (project override : String)
    (stack : Stack) : List Event × Option String :=
  match genv.run ["fetch", "origin"] with
  | .error e => ([.git ["fetch", "origin"]], some e)
  | .ok _ =>
    let loop := runSteps (syncNode genv (tailBranchOf stack) override)
      ⟨false, none⟩ stack.iter
    match loop.2.2 with
    | some e => (.git ["fetch", "origin"] :: loop.1, some e)
    | none =>
      let creation := runSteps (createStep api project stack loop.2.1.base)
        loop.2.1 (stack.iter.filter (fun n => n.MR == ""))
      match creation.2.2 with
      | some e => (.git ["fetch", "origin"] :: loop.1 ++ creation.1, some e)
      | none =>
        if loop.2.1.pushNeeded then
          match genv.run (["push", "origin", "--force-with-lease"] ++
              stack.branches) with
          | .error e =>
            (.git ["fetch", "origin"] :: loop.1 ++ creation.1 ++
              [.git (["push", "origin", "--force-with-lease"] ++
                stack.branches)], some e)
          | .ok _ =>
            (.git ["fetch", "origin"] :: loop.1 ++ creation.1 ++
              [.git (["push", "origin", "--force-with-lease"] ++
                stack.branches)], none)
        else
          (.git ["fetch", "origin"] :: loop.1 ++ creation.1, none)

end GlabStack

namespace GlabStack

/-! ### The sync engine's trace under a failure-free environment -/

/-- The status output the probe of a branch yields (failure-free case). -/
def statusOut (genv : GitEnv) (b : String) : String :=
  (genv.status b).toOption.getD ""

/-- The state a branch is probed as (failure-free case). -/
def probedState (genv : GitEnv) (b : String) : SyncState :=
  classifyStatus (statusOut genv b)

/-- The git events of the state-driven step of one node. -/
def stateEventsOk (tailBranch : String) (n : StackRef) :
    SyncState → List Event
  | .nothingToCommit => []
  | .branchIsBehind => [.git ["pull"]]
  | .branchHasDiverged =>
    [.git ["checkout", tailBranch],
     .git ["rebase", "--fork-point", "--update-refs", n.Branch]]

/-- The base branch the sync engine resolves: the explicit override when
configured, otherwise the remote's default branch parsed from
`remote show origin`. -/
def baseOf (genv : GitEnv) (override : String) : String :=
  if override ≠ "" then override
  else parseDefaultBranch ((genv.run ["remote", "show", "origin"]).toOption.getD "")

/-- The git events of the push step of one node. -/
def pushEventsOk (genv : GitEnv) (override : String) (n : StackRef) :
    List Event :=
  if n.MR = "" then
    (if n.Prev = "" then
      (if override ≠ "" then
        [.git ["ls-remote", "--exit-code", "--heads", "origin", override]]
      else
        [.git ["remote", "show", "origin"],
         .git ["ls-remote", "--exit-code", "--heads", "origin",
           baseOf genv override]])
     else []) ++ [.git ["push", "--set-upstream", "origin", n.Branch]]
  else []

/-- The events one node contributes to a failure-free sync run. -/
def nodeEventsOk (genv : GitEnv) (tailBranch override : String)
    (n : StackRef) : List Event :=
  .git ["checkout", n.Branch] :: .git ["status", "-uno"] ::
    (stateEventsOk tailBranch n (probedState genv n.Branch) ++
     pushEventsOk genv override n)

/-- The sync state after one node of a failure-free run: the push-needed
flag is set by the diverged state, and the head node lacking an MR
resolves the base branch. -/
def updSt (genv : GitEnv) (override : String) (st : SyncSt) (n : StackRef) :
    SyncSt :=
  { pushNeeded := st.pushNeeded ||
      (probedState genv n.Branch == SyncState.branchHasDiverged),
    base := if n.MR = "" ∧ n.Prev = "" then some (baseOf genv override)
      else st.base }

lemma runGit_ok {genv : GitEnv} {args : List String} {st : SyncSt}
    {k : String → List Event × SyncSt × Option String} {o : String}
    (h : genv.run args = .ok o) :
    runGit genv args st k = (.git args :: (k o).1, (k o).2.1, (k o).2.2) := by
  unfold runGit
  rw [h]

lemma runStatus_ok {genv : GitEnv} {b : String} {st : SyncSt}
    {k : String → List Event × SyncSt × Option String} {o : String}
    (h : genv.status b = .ok o) :
    runStatus genv b st k =
      (.git ["status", "-uno"] :: (k o).1, (k o).2.1, (k o).2.2) := by
  unfold runStatus
  rw [h]

lemma seqSteps_of_none {a : List Event × SyncSt × Option String}
    {k : SyncSt → List Event × SyncSt × Option String}
    {ev : List Event} {st : SyncSt} (h : a = (ev, st, none)) :
    seqSteps a k = (ev ++ (k st).1, (k st).2.1, (k st).2.2) := by
  rw [h]
  rfl

lemma stateStep_ok {genv : GitEnv} (hg : genv.Total) (tailBranch : String)
    (st : SyncSt) (n : StackRef) (state : SyncState) :
    stateStep genv tailBranch st n state =
      (stateEventsOk tailBranch n state,
       { st with pushNeeded := st.pushNeeded ||
           (state == SyncState.branchHasDiverged) }, none) := by
  cases state with
  | nothingToCommit =>
    have hb : (SyncState.nothingToCommit == SyncState.branchHasDiverged) = false := by
      decide
    cases st
    simp [stateStep, stateEventsOk, hb]
  | branchIsBehind =>
    obtain ⟨o, ho⟩ := hg.1 ["pull"]
    have hb : (SyncState.branchIsBehind == SyncState.branchHasDiverged) = false := by
      decide
    cases st
    simp [stateStep, stateEventsOk, runGit_ok ho, hb]
  | branchHasDiverged =>
    obtain ⟨o1, h1⟩ := hg.1 ["checkout", tailBranch]
    obtain ⟨o2, h2⟩ := hg.1 ["rebase", "--fork-point", "--update-refs", n.Branch]
    simp [stateStep, stateEventsOk, runGit_ok h1, runGit_ok h2]

lemma pushStep_ok {genv : GitEnv} (hg : genv.Total) (override : String)
    (st : SyncSt) (n : StackRef) :
    pushStep genv override st n =
      (pushEventsOk genv override n,
       { st with base := if n.MR = "" ∧ n.Prev = ""
           then some (baseOf genv override) else st.base }, none) := by
  by_cases hmr : n.MR = ""
  · by_cases hp : n.Prev = ""
    · by_cases hov : override ≠ ""
      · obtain ⟨o1, h1⟩ := hg.1 ["ls-remote", "--exit-code", "--heads", "origin",
          override]
        obtain ⟨o2, h2⟩ := hg.1 ["push", "--set-upstream", "origin", n.Branch]
        simp [pushStep, pushEventsOk, hmr, hp, hov, runGit_ok h1, runGit_ok h2,
          baseOf]
      · obtain ⟨o0, h0⟩ := hg.1 ["remote", "show", "origin"]
        obtain ⟨o1, h1⟩ := hg.1 ["ls-remote", "--exit-code", "--heads", "origin",
          parseDefaultBranch o0]
        obtain ⟨o2, h2⟩ := hg.1 ["push", "--set-upstream", "origin", n.Branch]
        have hb : baseOf genv override = parseDefaultBranch o0 := by
          simp [baseOf, hov, h0, Except.toOption]
        simp [pushStep, pushEventsOk, hmr, hp, hov, runGit_ok h0, runGit_ok h1,
          runGit_ok h2, hb]
    · obtain ⟨o2, h2⟩ := hg.1 ["push", "--set-upstream", "origin", n.Branch]
      simp [pushStep, pushEventsOk, hmr, hp, runGit_ok h2]
  · simp [pushStep, pushEventsOk, hmr]

lemma syncNode_ok {genv : GitEnv} (hg : genv.Total)
    (tailBranch override : String) (st : SyncSt) (n : StackRef) :
    syncNode genv tailBranch override st n =
      (nodeEventsOk genv tailBranch override n,
       updSt genv override st n, none) := by
  obtain ⟨co, hco⟩ := hg.1 ["checkout", n.Branch]
  obtain ⟨so, hso⟩ := hg.2 n.Branch
  have hps : probedState genv n.Branch = classifyStatus so := by
    unfold probedState statusOut
    rw [hso]
    simp [Except.toOption]
  unfold syncNode
  rw [runGit_ok hco, runStatus_ok hso,
    seqSteps_of_none (stateStep_ok hg tailBranch st n (classifyStatus so)),
    pushStep_ok hg override _ n]
  unfold nodeEventsOk updSt
  rw [hps]

end GlabStack

namespace GlabStack

lemma createStep_ok {api : ApiEnv} (hapi : api.Total) (project : String)
    (stack : Stack) (b : Option String) (st : SyncSt) (n : StackRef) :
    createStep api project stack b st n =
      ([.api (.createMR project n.Branch (createTargetOf stack b n)
         (splitDescription n.Description).1 (splitDescription n.Description).2)],
       st, none) := by
  obtain ⟨v, hv⟩ := hapi.2.2.2 project n.Branch (createTargetOf stack b n)
    (splitDescription n.Description).1 (splitDescription n.Description).2
  unfold createStep
  rw [hv]

lemma foldl_updSt_pushNeeded (genv : GitEnv) (override : String) :
    ∀ (l : List StackRef) (st : SyncSt),
    (l.foldl (updSt genv override) st).pushNeeded =
      (st.pushNeeded ||
        l.any (fun n => probedState genv n.Branch == SyncState.branchHasDiverged)) := by
  intro l
  induction l with
  | nil => intro st; simp
  | cons x xs ih =>
    intro st
    have hproj : (updSt genv override st x).pushNeeded =
        (st.pushNeeded ||
          (probedState genv x.Branch == SyncState.branchHasDiverged)) := rfl
    rw [List.foldl_cons, ih, hproj, List.any_cons, Bool.or_assoc]

lemma foldl_updSt_base (genv : GitEnv) (override : String) :
    ∀ (l : List StackRef) (st : SyncSt),
    (l.foldl (updSt genv override) st).base =
      (if l.any (fun n => n.MR == "" && n.Prev == "") then
        some (baseOf genv override) else st.base) := by
  intro l
  induction l with
  | nil => intro st; simp
  | cons x xs ih =>
    intro st
    rw [List.foldl_cons, ih, List.any_cons]
    by_cases hx : x.MR = "" ∧ x.Prev = ""
    · have hx' : (x.MR == "" && x.Prev == "") = true := by
        simp [hx.1, hx.2]
      by_cases hany : xs.any (fun n => n.MR == "" && n.Prev == "") = true
      · simp [hany, hx']
      · simp only [Bool.not_eq_true] at hany
        simp [hany, hx', updSt, hx]
    · have hx' : (x.MR == "" && x.Prev == "") = false := by
        rcases not_and_or.mp hx with h | h <;> simp [h]
      by_cases hany : xs.any (fun n => n.MR == "" && n.Prev == "") = true
      · simp [hany, hx']
      · simp only [Bool.not_eq_true] at hany
        simp [hany, hx', updSt, hx]

/-- Whether a failure-free sync run ends in the force-with-lease push:
some node was probed as diverged. -/
def pushFlag (genv : GitEnv) (stack : Stack) : Bool :=
  stack.iter.any
    (fun n => probedState genv n.Branch == SyncState.branchHasDiverged)

/-- The resolved base branch available to the creation phase: present
exactly when some node without an MR is the head. -/
def finalBase (genv : GitEnv) (override : String) (stack : Stack) :
    Option String :=
  if stack.iter.any (fun n => n.MR == "" && n.Prev == "") then
    some (baseOf genv override)
  else none

/-- The merge-request creation event of one node. -/
def createEventOk (genv : GitEnv) (project override : String) (stack : Stack)
    (n : StackRef) : Event :=
  .api (.createMR project n.Branch
    (createTargetOf stack (finalBase genv override stack) n)
    (splitDescription n.Description).1 (splitDescription n.Description).2)

lemma flatMap_single {α β : Type} (l : List α) (g : α → β) :
    (l.flatMap fun a => [g a]) = l.map g := by
  induction l with
  | nil => rfl
  | cons x xs ih => simp [ih]

/-- Under failure-free collaborators the sync engine succeeds and its
trace is: the fetch, the per-node events head to tail, the creation
events of the nodes lacking an MR, and the final force-with-lease push
exactly when some node diverged. -/
lemma stackSync_ok {genv : GitEnv} {api : ApiEnv} (hg : genv.Total)
    (hapi : api.Total) (project override : String) (stack : Stack) :
    stackSync genv api project override stack =
      (.git ["fetch", "origin"] ::
         (stack.iter.flatMap (nodeEventsOk genv (tailBranchOf stack) override) ++
          ((stack.iter.filter (fun n => n.MR == "")).map
            (createEventOk genv project override stack) ++
          (if pushFlag genv stack then
            [.git (["push", "origin", "--force-with-lease"] ++ stack.branches)]
           else []))),
       none) := by
  obtain ⟨fo, hfo⟩ := hg.1 ["fetch", "origin"]
  have hloop := runSteps_ok (f := syncNode genv (tailBranchOf stack) override)
    (g := nodeEventsOk genv (tailBranchOf stack) override)
    (u := updSt genv override) (l := stack.iter) (s := ⟨false, none⟩)
    (fun s' x _ => syncNode_ok hg _ _ s' x)
  have hst_base : (stack.iter.foldl (updSt genv override) ⟨false, none⟩).base =
      finalBase genv override stack := by
    rw [foldl_updSt_base]
    unfold finalBase
    rfl
  have hst_push : (stack.iter.foldl (updSt genv override) ⟨false, none⟩).pushNeeded =
      pushFlag genv stack := by
    rw [foldl_updSt_pushNeeded]
    unfold pushFlag
    rfl
  have hcreate := runSteps_ok
    (f := createStep api project stack
      (stack.iter.foldl (updSt genv override) ⟨false, none⟩).base)
    (g := fun n => [createEventOk genv project override stack n])
    (u := fun s _ => s)
    (l := stack.iter.filter (fun n => n.MR == ""))
    (s := stack.iter.foldl (updSt genv override) ⟨false, none⟩)
    (fun s' x _ => by
      rw [createStep_ok hapi project stack _ s' x]
      unfold createEventOk
      rw [hst_base])
  unfold stackSync
  rw [hfo]
  dsimp only
  rw [hloop]
  dsimp only
  rw [hcreate]
  dsimp only
  rw [hst_push, flatMap_single]
  by_cases hp : pushFlag genv stack = true
  · rw [hp]
    rw [if_pos rfl, if_pos rfl]
    obtain ⟨po, hpo⟩ := hg.1 (["push", "origin", "--force-with-lease"] ++
      stack.branches)
    rw [hpo]
    simp [List.append_assoc]
  · simp only [Bool.not_eq_true] at hp
    rw [hp]
    simp

end GlabStack

namespace GlabStack

/-- Whether an event is the force-with-lease push. -/
def isForcePush (e : Event) : Bool :=
  match e with
  | .git a => a.take 3 == ["push", "origin", "--force-with-lease"]
  | .api _ => false

/-- Whether an event is the remote default-branch query. -/
def isRemoteShow (e : Event) : Bool :=
  match e with
  | .git a => a == ["remote", "show", "origin"]
  | .api _ => false

/-- Whether an event is a merge-request creation. -/
def isCreateEvent (e : Event) : Bool :=
  match e with
  | .api (.createMR _ _ _ _ _) => true
  | _ => false

lemma countP_flatMap_zero {α ε : Type} {p : ε → Bool} {g : α → List ε} :
    ∀ {l : List α}, (∀ x ∈ l, (g x).countP p = 0) →
    (l.flatMap g).countP p = 0 := by
  intro l
  induction l with
  | nil => intro _; rfl
  | cons x xs ih =>
    intro h
    rw [List.flatMap_cons, List.countP_append,
      h x (List.mem_cons_self x xs),
      ih (fun y hy => h y (List.mem_cons_of_mem _ hy))]

lemma countP_map_zero {α ε : Type} {p : ε → Bool} {f : α → ε}
    {l : List α} (h : ∀ x ∈ l, p (f x) = false) :
    (l.map f).countP p = 0 := by
  rw [List.countP_eq_zero]
  intro e he
  obtain ⟨x, hx, rfl⟩ := List.mem_map.mp he
  simp [h x hx]

lemma mem_stateEventsOk {tailBranch : String} {n : StackRef}
    {state : SyncState} {e : Event} (h : e ∈ stateEventsOk tailBranch n state) :
    e = .git ["pull"] ∨ e = .git ["checkout", tailBranch] ∨
    e = .git ["rebase", "--fork-point", "--update-refs", n.Branch] := by
  cases state with
  | nothingToCommit => cases h
  | branchIsBehind =>
    left
    simpa [stateEventsOk] using h
  | branchHasDiverged =>
    rcases (by simpa [stateEventsOk] using h : _ ∨ _) with h1 | h2
    · exact Or.inr (Or.inl h1)
    · exact Or.inr (Or.inr h2)

lemma mem_pushEventsOk {genv : GitEnv} {override : String} {n : StackRef}
    {e : Event} (h : e ∈ pushEventsOk genv override n) :
    e = .git ["ls-remote", "--exit-code", "--heads", "origin", override] ∨
    e = .git ["remote", "show", "origin"] ∨
    e = .git ["ls-remote", "--exit-code", "--heads", "origin",
      baseOf genv override] ∨
    e = .git ["push", "--set-upstream", "origin", n.Branch] := by
  unfold pushEventsOk at h
  by_cases hmr : n.MR = ""
  · rw [if_pos hmr] at h
    rcases List.mem_append.mp h with h1 | h2
    · by_cases hp : n.Prev = ""
      · rw [if_pos hp] at h1
        by_cases hov : override ≠ ""
        · rw [if_pos hov] at h1
          exact Or.inl (by simpa using h1)
        · rw [if_neg hov] at h1
          rcases (by simpa using h1 : _ ∨ _) with ha | hb
          · exact Or.inr (Or.inl ha)
          · exact Or.inr (Or.inr (Or.inl hb))
      · rw [if_neg hp] at h1
        cases h1
    · exact Or.inr (Or.inr (Or.inr (by simpa using h2)))
  · rw [if_neg hmr] at h
    cases h

lemma mem_nodeEventsOk {genv : GitEnv} {tailBranch override : String}
    {n : StackRef} {e : Event}
    (h : e ∈ nodeEventsOk genv tailBranch override n) :
    e = .git ["checkout", n.Branch] ∨ e = .git ["status", "-uno"] ∨
    e ∈ stateEventsOk tailBranch n (probedState genv n.Branch) ∨
    e ∈ pushEventsOk genv override n := by
  unfold nodeEventsOk at h
  rcases List.mem_cons.mp h with h1 | h2
  · exact Or.inl h1
  rcases List.mem_cons.mp h2 with h3 | h4
  · exact Or.inr (Or.inl h3)
  rcases List.mem_append.mp h4 with h5 | h6
  · exact Or.inr (Or.inr (Or.inl h5))
  · exact Or.inr (Or.inr (Or.inr h6))

lemma isForcePush_nodeEventsOk (genv : GitEnv) (tailBranch override : String)
    (n : StackRef) : (nodeEventsOk genv tailBranch override n).countP isForcePush = 0 := by
  rw [List.countP_eq_zero]
  intro e he
  rcases mem_nodeEventsOk he with h | h | h | h
  · rw [h]; exact fun hc => Bool.noConfusion hc
  · rw [h]; exact fun hc => Bool.noConfusion hc
  · rcases mem_stateEventsOk h with h1 | h1 | h1 <;> rw [h1] <;>
      exact fun hc => Bool.noConfusion hc
  · rcases mem_pushEventsOk h with h1 | h1 | h1 | h1 <;> rw [h1] <;>
      exact fun hc => Bool.noConfusion hc

end GlabStack

namespace GlabStack

/-- C4: under failure-free collaborators, Sync's trace processes the
nodes strictly head to tail; a node probed as behind receives the pull
right after its checkout and status probe and before any push event of
that node; a node probed as diverged triggers the checkout of the stack's
tail branch followed by the fork-point, ref-updating rebase of the node's
branch before processing continues; a node probed as nothing-to-commit
triggers neither, and no pull or rebase hides inside the push step. -/
theorem sync_state_actions_spec (genv : GitEnv) (api : ApiEnv)
    (project override : String) (stack : Stack)
    (hg : genv.Total) (hapi : api.Total) :
    ((stackSync genv api project override stack).1 =
      .git ["fetch", "origin"] ::
        (stack.iter.flatMap (nodeEventsOk genv (tailBranchOf stack) override) ++
         ((stack.iter.filter (fun n => n.MR == "")).map
            (createEventOk genv project override stack) ++
          (if pushFlag genv stack then
            [.git (["push", "origin", "--force-with-lease"] ++ stack.branches)]
           else [])))) ∧
    ∀ n ∈ stack.iter,
      (probedState genv n.Branch = .branchIsBehind →
        nodeEventsOk genv (tailBranchOf stack) override n =
          [.git ["checkout", n.Branch], .git ["status", "-uno"],
           .git ["pull"]] ++ pushEventsOk genv override n) ∧
      (probedState genv n.Branch = .branchHasDiverged →
        nodeEventsOk genv (tailBranchOf stack) override n =
          [.git ["checkout", n.Branch], .git ["status", "-uno"],
           .git ["checkout", tailBranchOf stack],
           .git ["rebase", "--fork-point", "--update-refs", n.Branch]] ++
            pushEventsOk genv override n) ∧
      (probedState genv n.Branch = .nothingToCommit →
        nodeEventsOk genv (tailBranchOf stack) override n =
          [.git ["checkout", n.Branch], .git ["status", "-uno"]] ++
            pushEventsOk genv override n) ∧
      Event.git ["pull"] ∉ pushEventsOk genv override n ∧
      Event.git ["rebase", "--fork-point", "--update-refs", n.Branch] ∉
        pushEventsOk genv override n := by
  constructor
  · rw [stackSync_ok hg hapi project override stack]
  · intro n _
    refine ⟨?_, ?_, ?_, ?_, ?_⟩
    · intro hst
      unfold nodeEventsOk
      rw [hst]
      rfl
    · intro hst
      unfold nodeEventsOk
      rw [hst]
      rfl
    · intro hst
      unfold nodeEventsOk
      rw [hst]
      rfl
    · intro hmem
      rcases mem_pushEventsOk hmem with h | h | h | h <;>
        exact absurd (congrArg (fun e => match e with
          | Event.git a => a.take 1 | Event.api _ => []) h) (by simp)
    · intro hmem
      rcases mem_pushEventsOk hmem with h | h | h | h <;>
        exact absurd (congrArg (fun e => match e with
          | Event.git a => a.take 1 | Event.api _ => []) h) (by simp)

end GlabStack

namespace GlabStack

/-- The two-node stack of the "non standard base branch" scenario of
`Test_stackSync`: no node has an MR yet. -/
def syncPairFixture : Stack :=
  { Title := "my cool stack", Refs := [
      { SHA := "1", Prev := "", Next := "2", Branch := "Branch1", MR := "" },
      { SHA := "2", Prev := "1", Next := "", Branch := "Branch2", MR := "" }] }

/-- A failure-free git runner probing every branch as behind. -/
def syncGitBehind : GitEnv :=
  { run := fun _ => .ok "", status := fun _ => .ok BranchIsBehind }

/-- A failure-free git runner probing Branch1 as diverged. -/
def syncGitDiverged : GitEnv :=
  { run := fun _ => .ok "",
    status := fun b =>
      .ok (if b = "Branch1" then BranchHasDiverged else NothingToCommit) }

/-- C6 counterexample: a run whose nodes pulled (both probed as behind)
but in which no node diverged issues no force-with-lease push at all,
although the claim requires one after any pull — matching the
"non standard base branch" scenario of `Test_stackSync`, which sets no
`pushNeeded` expectation despite its two `BranchIsBehind` nodes. -/
theorem sync_force_push_pull_counterexample :
    Event.git ["pull"] ∈
      (stackSync syncGitBehind updateApiFixture "p" "jawn" syncPairFixture).1 ∧
    (stackSync syncGitBehind updateApiFixture "p" "jawn"
      syncPairFixture).1.countP isForcePush = 0 ∧
    (stackSync syncGitBehind updateApiFixture "p" "jawn" syncPairFixture).2 =
      none := by
  decide

/-- C6 (amended): under failure-free collaborators, a sync run ends with
exactly one force-with-lease push naming all of the stack's branches
together iff some node was probed as diverged — the push-needed flag is
set by the BranchHasDiverged state only, not by BranchIsBehind — and no
force-with-lease push is issued otherwise. -/
theorem sync_force_push_iff_diverged (genv : GitEnv) (api : ApiEnv)
    (project override : String) (stack : Stack)
    (hg : genv.Total) (hapi : api.Total) :
    ((stackSync genv api project override stack).1.countP isForcePush =
      if pushFlag genv stack then 1 else 0) ∧
    (pushFlag genv stack = true →
      (stackSync genv api project override stack).1.getLast? =
        some (.git (["push", "origin", "--force-with-lease"] ++
          stack.branches))) ∧
    (stackSync genv api project override stack).2 = none := by
  rw [stackSync_ok hg hapi project override stack]
  have h1 : (stack.iter.flatMap
      (nodeEventsOk genv (tailBranchOf stack) override)).countP isForcePush = 0 :=
    countP_flatMap_zero (fun x _ => isForcePush_nodeEventsOk genv _ override x)
  have h2 : ((stack.iter.filter (fun n => n.MR == "")).map
      (createEventOk genv project override stack)).countP isForcePush = 0 :=
    countP_map_zero (fun x _ => rfl)
  refine ⟨?_, ?_, rfl⟩
  · rw [show ((Event.git ["fetch", "origin"] :: _ : List Event)).countP isForcePush =
      _ from List.countP_cons _ _ _, List.countP_append, List.countP_append,
      h1, h2]
    by_cases hp : pushFlag genv stack = true
    · rw [hp, if_pos rfl, if_pos rfl]
      rfl
    · simp only [Bool.not_eq_true] at hp
      rw [hp]
      rfl
  · intro hp
    rw [hp, if_pos rfl]
    rw [show Event.git ["fetch", "origin"] ::
        (stack.iter.flatMap (nodeEventsOk genv (tailBranchOf stack) override) ++
         ((stack.iter.filter (fun n => n.MR == "")).map
            (createEventOk genv project override stack) ++
          [Event.git (["push", "origin", "--force-with-lease"] ++
            stack.branches)])) =
        (Event.git ["fetch", "origin"] ::
          (stack.iter.flatMap (nodeEventsOk genv (tailBranchOf stack) override) ++
           (stack.iter.filter (fun n => n.MR == "")).map
              (createEventOk genv project override stack))) ++
          [Event.git (["push", "origin", "--force-with-lease"] ++
            stack.branches)] by simp [List.append_assoc]]
    exact List.getLast?_concat _

end GlabStack

namespace GlabStack

lemma isCreateEvent_nodeEventsOk (genv : GitEnv) (tailBranch override : String)
    (n : StackRef) :
    (nodeEventsOk genv tailBranch override n).filter isCreateEvent = [] := by
  rw [List.filter_eq_nil_iff]
  intro e he
  rcases mem_nodeEventsOk he with h | h | h | h
  · rw [h]; exact fun hc => Bool.noConfusion hc
  · rw [h]; exact fun hc => Bool.noConfusion hc
  · rcases mem_stateEventsOk h with h1 | h1 | h1 <;> rw [h1] <;>
      exact fun hc => Bool.noConfusion hc
  · rcases mem_pushEventsOk h with h1 | h1 | h1 | h1 <;> rw [h1] <;>
      exact fun hc => Bool.noConfusion hc

lemma filter_flatMap_nil {α ε : Type} {p : ε → Bool} {g : α → List ε} :
    ∀ {l : List α}, (∀ x ∈ l, (g x).filter p = []) →
    (l.flatMap g).filter p = [] := by
  intro l
  induction l with
  | nil => intro _; rfl
  | cons x xs ih =>
    intro h
    rw [List.flatMap_cons, List.filter_append, h x (List.mem_cons_self x xs),
      ih (fun y hy => h y (List.mem_cons_of_mem _ hy))]
    rfl

lemma splitFirstLine_eq_none {l : List Char} :
    splitFirstLine l = none ↔ '\n' ∉ l := by
  induction l with
  | nil => simp [splitFirstLine]
  | cons c rest ih =>
    by_cases hc : c = '\n'
    · subst hc
      simp [splitFirstLine]
    · rw [show splitFirstLine (c :: rest) =
          (match splitFirstLine rest with
           | none => none
           | some (a, b) => some (c :: a, b)) from by
        simp [splitFirstLine, hc]]
      cases hs : splitFirstLine rest with
      | none =>
        simp only [List.mem_cons]
        constructor
        · intro _ hmem
          rcases hmem with h1 | h2
          · exact hc h1.symm
          · exact (ih.mp hs) h2
        · intro _
          trivial
      | some p =>
        obtain ⟨a, b⟩ := p
        simp only [List.mem_cons]
        constructor
        · intro hcontra
          exact Option.noConfusion hcontra
        · intro hall
          exfalso
          refine hall (Or.inr ?_)
          by_contra hnot
          rw [ih.mpr hnot] at hs
          exact Option.noConfusion hs

/-- C3: after a failure-free run over a well-formed stack, Sync's trace
contains exactly one merge-request creation per node whose MR field is
empty, in stack order: source is the node's branch and the target is the
previous node's branch, or the resolved base branch for the head node; a
single-line description becomes the MR title with an empty body, and for
a multi-line description the first line becomes the title. -/
theorem sync_creates_mrs_spec (genv : GitEnv) (api : ApiEnv)
    (project override : String) (stack : Stack)
    (hg : genv.Total) (hapi : api.Total) (hwf : stack.WF) :
    (stackSync genv api project override stack).2 = none ∧
    (stackSync genv api project override stack).1.filter isCreateEvent =
      (stack.iter.filter (fun n => n.MR == "")).map
        (createEventOk genv project override stack) ∧
    (∀ n ∈ stack.iter, n.MR = "" → n.Prev = "" →
      createTargetOf stack (finalBase genv override stack) n =
        baseOf genv override) ∧
    (∀ n ∈ stack.iter, n.Prev ≠ "" → ∃ p2 ∈ stack.Refs,
      findRef stack.Refs n.Prev = some p2 ∧
      createTargetOf stack (finalBase genv override stack) n = p2.Branch) ∧
    (∀ l : List Char, splitFirstLine l = none ↔ '\n' ∉ l) ∧
    (∀ d : String, splitFirstLine d.data = none → splitDescription d = (d, "")) ∧
    (∀ (d : String) (t rest : List Char), splitFirstLine d.data = some (t, rest) →
      (splitDescription d).1 = String.mk t) := by
  rw [stackSync_ok hg hapi project override stack]
  refine ⟨rfl, ?_, ?_, ?_, ?_, ?_, ?_⟩
  · have hA : (stack.iter.flatMap
        (nodeEventsOk genv (tailBranchOf stack) override)).filter
          isCreateEvent = [] :=
      filter_flatMap_nil
        (fun x _ => isCreateEvent_nodeEventsOk genv _ override x)
    have hB : ((stack.iter.filter (fun n => n.MR == "")).map
        (createEventOk genv project override stack)).filter isCreateEvent =
        (stack.iter.filter (fun n => n.MR == "")).map
          (createEventOk genv project override stack) := by
      rw [List.filter_eq_self]
      intro e he
      obtain ⟨x, -, rfl⟩ := List.mem_map.mp he
      rfl
    have hC : (if pushFlag genv stack then
        [Event.git (["push", "origin", "--force-with-lease"] ++
          stack.branches)] else []).filter isCreateEvent = [] := by
      by_cases hp : pushFlag genv stack = true
      · rw [hp, if_pos rfl]
        rfl
      · simp only [Bool.not_eq_true] at hp
        rw [hp]
        rfl
    rw [show (Event.git ["fetch", "origin"] ::
        (stack.iter.flatMap (nodeEventsOk genv (tailBranchOf stack) override) ++
         ((stack.iter.filter (fun n => n.MR == "")).map
            (createEventOk genv project override stack) ++
          (if pushFlag genv stack then
            [Event.git (["push", "origin", "--force-with-lease"] ++
              stack.branches)] else [])))).filter isCreateEvent =
      (stack.iter.flatMap (nodeEventsOk genv (tailBranchOf stack) override) ++
         ((stack.iter.filter (fun n => n.MR == "")).map
            (createEventOk genv project override stack) ++
          (if pushFlag genv stack then
            [Event.git (["push", "origin", "--force-with-lease"] ++
              stack.branches)] else []))).filter isCreateEvent from rfl,
      List.filter_append, List.filter_append, hA, hB, hC]
    simp
  · intro n hn hmr hp
    unfold createTargetOf
    rw [if_pos hp]
    unfold finalBase
    have hany : stack.iter.any (fun n => n.MR == "" && n.Prev == "") = true :=
      List.any_eq_true.mpr ⟨n, hn, by simp [hmr, hp]⟩
    rw [if_pos hany]
    rfl
  · intro n hn hp
    obtain ⟨p2, hp2mem, hfind, -⟩ :=
      hwf.prev_resolves n (hwf.mem_refs_of_mem_iter hn) hp
    refine ⟨p2, hp2mem, hfind, ?_⟩
    unfold createTargetOf
    rw [if_neg hp, hfind]
    rfl
  · intro l
    exact splitFirstLine_eq_none
  · intro d hsplit
    unfold splitDescription
    rw [hsplit]
  · intro d t rest hsplit
    unfold splitDescription
    rw [hsplit]

end GlabStack

namespace GlabStack

lemma mem_pushEventsOk_override {genv : GitEnv} {override : String}
    {n : StackRef} {e : Event} (hov : override ≠ "")
    (h : e ∈ pushEventsOk genv override n) :
    e = .git ["ls-remote", "--exit-code", "--heads", "origin", override] ∨
    e = .git ["push", "--set-upstream", "origin", n.Branch] := by
  unfold pushEventsOk at h
  by_cases hmr : n.MR = ""
  · rw [if_pos hmr] at h
    rcases List.mem_append.mp h with h1 | h2
    · by_cases hp : n.Prev = ""
      · rw [if_pos hp, if_pos hov] at h1
        exact Or.inl (by simpa using h1)
      · rw [if_neg hp] at h1
        cases h1
    · exact Or.inr (by simpa using h2)
  · rw [if_neg hmr] at h
    cases h

lemma isRemoteShow_nodeEventsOk {genv : GitEnv} {tailBranch override : String}
    {n : StackRef} (hov : override ≠ "") :
    (nodeEventsOk genv tailBranch override n).countP isRemoteShow = 0 := by
  rw [List.countP_eq_zero]
  intro e he
  rcases mem_nodeEventsOk he with h | h | h | h
  · rw [h]; exact fun hc => Bool.noConfusion hc
  · rw [h]; exact fun hc => Bool.noConfusion hc
  · rcases mem_stateEventsOk h with h1 | h1 | h1 <;> rw [h1] <;>
      exact fun hc => Bool.noConfusion hc
  · rcases mem_pushEventsOk_override hov h with h1 | h1 <;> rw [h1] <;>
      exact fun hc => Bool.noConfusion hc

/-- C7: when the head node lacks an MR, a failure-free sync resolves the
base branch as the explicit override when one is configured, and
otherwise as the remote's default branch obtained by running
`remote show origin`; in both cases the resolved base branch is verified
on the remote with `ls-remote --exit-code --heads origin` immediately
before the head's push, and when an override is configured the remote
default-branch query is never performed anywhere in the run. -/
theorem sync_base_branch_resolution (genv : GitEnv) (api : ApiEnv)
    (project override : String) (stack : Stack) (h : StackRef)
    (hg : genv.Total) (hapi : api.Total)
    (_hh : h ∈ stack.iter) (hhp : h.Prev = "") (hhm : h.MR = "") :
    ((stackSync genv api project override stack).1 =
      .git ["fetch", "origin"] ::
        (stack.iter.flatMap (nodeEventsOk genv (tailBranchOf stack) override) ++
         ((stack.iter.filter (fun n => n.MR == "")).map
            (createEventOk genv project override stack) ++
          (if pushFlag genv stack then
            [.git (["push", "origin", "--force-with-lease"] ++ stack.branches)]
           else [])))) ∧
    (override ≠ "" →
      pushEventsOk genv override h =
        [.git ["ls-remote", "--exit-code", "--heads", "origin", override],
         .git ["push", "--set-upstream", "origin", h.Branch]] ∧
      baseOf genv override = override ∧
      (stackSync genv api project override stack).1.countP isRemoteShow = 0) ∧
    (override = "" →
      pushEventsOk genv override h =
        [.git ["remote", "show", "origin"],
         .git ["ls-remote", "--exit-code", "--heads", "origin",
           baseOf genv override],
         .git ["push", "--set-upstream", "origin", h.Branch]] ∧
      baseOf genv override =
        parseDefaultBranch
          ((genv.run ["remote", "show", "origin"]).toOption.getD "")) := by
  have hok := stackSync_ok hg hapi project override stack
  refine ⟨by rw [hok], ?_, ?_⟩
  · intro hov
    refine ⟨?_, ?_, ?_⟩
    · unfold pushEventsOk
      rw [if_pos hhm, if_pos hhp, if_pos hov]
      rfl
    · unfold baseOf
      rw [if_pos hov]
    · rw [hok]
      have h1 : (stack.iter.flatMap
          (nodeEventsOk genv (tailBranchOf stack) override)).countP
            isRemoteShow = 0 :=
        countP_flatMap_zero (fun x _ => isRemoteShow_nodeEventsOk hov)
      have h2 : ((stack.iter.filter (fun n => n.MR == "")).map
          (createEventOk genv project override stack)).countP isRemoteShow = 0 :=
        countP_map_zero (fun x _ => rfl)
      have h3 : (if pushFlag genv stack then
          [Event.git (["push", "origin", "--force-with-lease"] ++
            stack.branches)] else []).countP isRemoteShow = 0 := by
        by_cases hp : pushFlag genv stack = true
        · rw [hp, if_pos rfl]
          rfl
        · simp only [Bool.not_eq_true] at hp
          rw [hp]
          rfl
      rw [show ((Event.git ["fetch", "origin"] :: (_ ++ (_ ++ _)) :
            List Event)).countP isRemoteShow =
          ((_ ++ (_ ++ _)) : List Event).countP isRemoteShow +
            (if isRemoteShow (Event.git ["fetch", "origin"]) then 1 else 0)
          from List.countP_cons _ _ _,
        List.countP_append, List.countP_append, h1, h2, h3]
      rfl
  · intro hov
    have hov' : ¬ override ≠ "" := by simp [hov]
    refine ⟨?_, ?_⟩
    · unfold pushEventsOk
      rw [if_pos hhm, if_pos hhp, if_neg hov']
      rfl
    · unfold baseOf
      rw [if_neg hov']

end GlabStack


namespace GlabStack

/-- The git runner of the first `Test_stackSync` scenario: Branch2 is
behind its upstream, everything else is clean, and the default branch is
main. -/
def syncGitScenario1 : GitEnv :=
  { run := fun a =>
      .ok (if a = ["remote", "show", "origin"] then "HEAD branch: main"
        else ""),
    status := fun b =>
      .ok (if b = "Branch2" then BranchIsBehind else NothingToCommit) }

/-- The stack of the first `Test_stackSync` scenario: Branch1 already has
a merge request, Branch2 has none and carries a multi-line description
with a blank second line. -/
def syncStackScenario1 : Stack :=
  { Title := "my cool stack", Refs := [
      { SHA := "1", Prev := "", Next := "2", Branch := "Branch1",
        MR := "http://gitlab.com/stack_guy/stackproject/-/merge_requests/1",
        Description := "single line desc" },
      { SHA := "2", Prev := "1", Next := "", Branch := "Branch2", MR := "",
        Description := "multi line desc\n\ndescription, bark!" }] }

/-- C10: for the description "multi line desc\n\ndescription, bark!" the
sync run of the first `Test_stackSync` scenario creates exactly one merge
request whose title is the first line and whose body is the remainder
with its leading newline removed — "description, bark!", not
"\ndescription, bark!". -/
theorem sync_multiline_description_split :
    splitDescription "multi line desc\n\ndescription, bark!" =
      ("multi line desc", "description, bark!") ∧
    (stackSync syncGitScenario1 updateApiFixture "stack_guy/stackproject" ""
        syncStackScenario1).1.filter isCreateEvent =
      [.api (.createMR "stack_guy/stackproject" "Branch2" "Branch1"
        "multi line desc" "description, bark!")] ∧
    (stackSync syncGitScenario1 updateApiFixture "stack_guy/stackproject" ""
        syncStackScenario1).2 = none := by
  decide

end GlabStack

namespace GlabStack

/-- C8: first-failure-abort semantics for all three operations.  The
reordering engine can only fail with the validation error and performs no
collaborator calls.  When an API step of the MR topology updater fails at
some node after a clean prefix of nodes, the operation returns exactly
that error together with the prefix trace plus the failing node's calls
and issues nothing further — the already-issued calls stand, with no
compensation.  For the sync engine every failure point aborts the same
way: a failing fetch ends the run with only the fetch in the trace; a
failing git step of some node after a clean prefix of nodes ends it with
the fetch, the prefix trace and the failing node's events; a failing
merge-request creation after a clean node walk and a clean prefix of
creations ends it with everything issued so far plus the failing
creation call; and a failing final force-with-lease push ends it with
everything issued so far plus that push.  In every case the returned
error is the failing call's error and nothing follows it. -/
theorem first_error_aborts :
    (∀ (s : Stack) (order : List String) (e : StackError),
      matchBranchesToStack s order = .error e → e = .missingBranches) ∧
    (∀ (api : ApiEnv) (project base : String) (old new : Stack)
       (xs : List StackRef) (y : StackRef) (zs : List StackRef)
       (tr ty : List ApiCall) (e : String),
      new.iter = xs ++ y :: zs →
      runSteps (updateStep api project base old new) () xs = (tr, (), none) →
      updateStep api project base old new () y = (ty, (), some e) →
      updateMRs api project base old new = (tr ++ ty, some e)) ∧
    (∀ (genv : GitEnv) (api : ApiEnv) (project override : String)
       (stack : Stack) (o : String) (xs : List StackRef) (y : StackRef)
       (zs : List StackRef) (tr ty : List Event) (s1 s2 : SyncSt) (e : String),
      genv.run ["fetch", "origin"] = .ok o →
      stack.iter = xs ++ y :: zs →
      runSteps (syncNode genv (tailBranchOf stack) override)
        ⟨false, none⟩ xs = (tr, s1, none) →
      syncNode genv (tailBranchOf stack) override s1 y = (ty, s2, some e) →
      stackSync genv api project override stack =
        (.git ["fetch", "origin"] :: (tr ++ ty), some e)) ∧
    (∀ (genv : GitEnv) (api : ApiEnv) (project override : String)
       (stack : Stack) (e : String),
      genv.run ["fetch", "origin"] = .error e →
      stackSync genv api project override stack =
        ([.git ["fetch", "origin"]], some e)) ∧
    (∀ (genv : GitEnv) (api : ApiEnv) (project override : String)
       (stack : Stack) (o : String) (xs : List StackRef) (y : StackRef)
       (zs : List StackRef) (tr tc ty : List Event) (s1 s2 s3 : SyncSt)
       (e : String),
      genv.run ["fetch", "origin"] = .ok o →
      runSteps (syncNode genv (tailBranchOf stack) override)
        ⟨false, none⟩ stack.iter = (tr, s1, none) →
      stack.iter.filter (fun n => n.MR == "") = xs ++ y :: zs →
      runSteps (createStep api project stack s1.base) s1 xs = (tc, s2, none) →
      createStep api project stack s1.base s2 y = (ty, s3, some e) →
      stackSync genv api project override stack =
        (.git ["fetch", "origin"] :: (tr ++ (tc ++ ty)), some e)) ∧
    (∀ (genv : GitEnv) (api : ApiEnv) (project override : String)
       (stack : Stack) (o : String) (tr tc : List Event) (s1 s2 : SyncSt)
       (e : String),
      genv.run ["fetch", "origin"] = .ok o →
      runSteps (syncNode genv (tailBranchOf stack) override)
        ⟨false, none⟩ stack.iter = (tr, s1, none) →
      runSteps (createStep api project stack s1.base) s1
        (stack.iter.filter (fun n => n.MR == "")) = (tc, s2, none) →
      s1.pushNeeded = true →
      genv.run (["push", "origin", "--force-with-lease"] ++ stack.branches) =
        .error e →
      stackSync genv api project override stack =
        (.git ["fetch", "origin"] ::
          (tr ++ (tc ++ [.git (["push", "origin", "--force-with-lease"] ++
            stack.branches)])), some e)) := by
  refine ⟨?_, ?_, ?_, ?_, ?_, ?_⟩
  · intro s order e _
    cases e
    rfl
  · intro api project base old new xs y zs tr ty e hiter hpre hfail
    unfold updateMRs
    rw [hiter, runSteps_abort hpre hfail]
  · intro genv api project override stack o xs y zs tr ty s1 s2 e
      hfetch hiter hpre hfail
    unfold stackSync
    rw [hfetch]
    dsimp only
    rw [hiter, runSteps_abort hpre hfail]
  · intro genv api project override stack e hfetch
    unfold stackSync
    rw [hfetch]
  · intro genv api project override stack o xs y zs tr tc ty s1 s2 s3 e
      hfetch hloop hfilter hcpre hcfail
    unfold stackSync
    rw [hfetch]
    dsimp only
    rw [hloop]
    dsimp only
    rw [hfilter, runSteps_abort hcpre hcfail]
    dsimp only
    simp [List.append_assoc]
  · intro genv api project override stack o tr tc s1 s2 e
      hfetch hloop hcre hflag hforce
    unfold stackSync
    rw [hfetch]
    dsimp only
    rw [hloop]
    dsimp only
    rw [hcre]
    dsimp only
    rw [hflag, if_pos rfl, hforce]
    simp [List.append_assoc]

end GlabStack

namespace GlabStack

lemma syncGitScenario1_total : syncGitScenario1.Total :=
  ⟨fun _ => ⟨_, rfl⟩, fun _ => ⟨_, rfl⟩⟩

lemma syncGitBehind_total : syncGitBehind.Total :=
  ⟨fun _ => ⟨_, rfl⟩, fun _ => ⟨_, rfl⟩⟩

lemma syncGitDiverged_total : syncGitDiverged.Total :=
  ⟨fun _ => ⟨_, rfl⟩, fun _ => ⟨_, rfl⟩⟩

theorem sync_creates_mrs_spec_witness :
    (stackSync syncGitScenario1 updateApiFixture "stack_guy/stackproject" ""
        syncStackScenario1).1.filter isCreateEvent =
      (syncStackScenario1.iter.filter (fun n => n.MR == "")).map
        (createEventOk syncGitScenario1 "stack_guy/stackproject" ""
          syncStackScenario1) :=
  (sync_creates_mrs_spec syncGitScenario1 updateApiFixture
    "stack_guy/stackproject" "" syncStackScenario1
    syncGitScenario1_total updateApiFixture_total (by decide)).2.1

theorem sync_state_actions_spec_witness :
    (stackSync syncGitScenario1 updateApiFixture "stack_guy/stackproject" ""
        syncStackScenario1).1 =
      .git ["fetch", "origin"] ::
        (syncStackScenario1.iter.flatMap
          (nodeEventsOk syncGitScenario1 (tailBranchOf syncStackScenario1) "") ++
         ((syncStackScenario1.iter.filter (fun n => n.MR == "")).map
            (createEventOk syncGitScenario1 "stack_guy/stackproject" ""
              syncStackScenario1) ++
          (if pushFlag syncGitScenario1 syncStackScenario1 then
            [.git (["push", "origin", "--force-with-lease"] ++
              syncStackScenario1.branches)]
           else []))) :=
  (sync_state_actions_spec syncGitScenario1 updateApiFixture
    "stack_guy/stackproject" "" syncStackScenario1
    syncGitScenario1_total updateApiFixture_total).1

theorem sync_force_push_iff_diverged_witness :
    (stackSync syncGitDiverged updateApiFixture "p" "jawn"
      syncPairFixture).1.countP isForcePush =
      (if pushFlag syncGitDiverged syncPairFixture then 1 else 0) :=
  (sync_force_push_iff_diverged syncGitDiverged updateApiFixture "p" "jawn"
    syncPairFixture syncGitDiverged_total updateApiFixture_total).1

theorem sync_base_branch_resolution_witness :
    pushEventsOk syncGitBehind "jawn"
        { SHA := "1", Prev := "", Next := "2", Branch := "Branch1", MR := "" } =
      [.git ["ls-remote", "--exit-code", "--heads", "origin", "jawn"],
       .git ["push", "--set-upstream", "origin", "Branch1"]] ∧
    baseOf syncGitBehind "jawn" = "jawn" ∧
    (stackSync syncGitBehind updateApiFixture "p" "jawn"
      syncPairFixture).1.countP isRemoteShow = 0 :=
  (sync_base_branch_resolution syncGitBehind updateApiFixture "p" "jawn"
    syncPairFixture
    { SHA := "1", Prev := "", Next := "2", Branch := "Branch1", MR := "" }
    syncGitBehind_total updateApiFixture_total
    (by decide) rfl rfl).2.1 (by decide)

/-- A git runner whose every command except the initial fetch fails. -/
def syncGitFailing : GitEnv :=
  { run := fun a => if a = ["fetch", "origin"] then .ok "" else .error "boom",
    status := fun _ => .ok NothingToCommit }

/-- A git runner whose every command fails, the fetch included. -/
def syncGitFetchFail : GitEnv :=
  { run := fun _ => .error "nofetch", status := fun _ => .ok NothingToCommit }

/-- A merge-request API whose creation call fails. -/
def apiCreateFail : ApiEnv :=
  { listOpenMRsBySource := fun _ _ => .ok [],
    getMergeRequest := fun _ _ => .ok {},
    updateMergeRequest := fun _ _ _ => .ok {},
    createMergeRequest := fun _ _ _ _ _ => .error "apiboom" }

/-- A git runner probing Branch1 as diverged whose force-with-lease push
fails. -/
def syncGitDivergedPushFail : GitEnv :=
  { run := fun a => if a.take 3 = ["push", "origin", "--force-with-lease"]
      then .error "pushboom" else .ok "",
    status := fun b =>
      .ok (if b = "Branch1" then BranchHasDiverged else NothingToCommit) }

theorem first_error_aborts_witness :
    (stackSync syncGitFailing updateApiFixture "p" "jawn" syncPairFixture =
      ([.git ["fetch", "origin"], .git ["checkout", "Branch1"]],
       some "boom")) ∧
    (stackSync syncGitFetchFail updateApiFixture "p" "jawn" syncPairFixture =
      ([.git ["fetch", "origin"]], some "nofetch")) ∧
    (stackSync syncGitBehind apiCreateFail "p" "jawn" syncPairFixture =
      ([.git ["fetch", "origin"],
        .git ["checkout", "Branch1"], .git ["status", "-uno"], .git ["pull"],
        .git ["ls-remote", "--exit-code", "--heads", "origin", "jawn"],
        .git ["push", "--set-upstream", "origin", "Branch1"],
        .git ["checkout", "Branch2"], .git ["status", "-uno"], .git ["pull"],
        .git ["push", "--set-upstream", "origin", "Branch2"],
        .api (.createMR "p" "Branch1" "jawn" "" "")], some "apiboom")) ∧
    (stackSync syncGitDivergedPushFail updateApiFixture "p" "jawn"
        syncPairFixture =
      ([.git ["fetch", "origin"],
        .git ["checkout", "Branch1"], .git ["status", "-uno"],
        .git ["checkout", "Branch2"],
        .git ["rebase", "--fork-point", "--update-refs", "Branch1"],
        .git ["ls-remote", "--exit-code", "--heads", "origin", "jawn"],
        .git ["push", "--set-upstream", "origin", "Branch1"],
        .git ["checkout", "Branch2"], .git ["status", "-uno"],
        .git ["push", "--set-upstream", "origin", "Branch2"],
        .api (.createMR "p" "Branch1" "jawn" "" ""),
        .api (.createMR "p" "Branch2" "Branch1" "" ""),
        .git ["push", "origin", "--force-with-lease", "Branch1", "Branch2"]],
       some "pushboom")) :=
  ⟨first_error_aborts.2.2.1 syncGitFailing updateApiFixture "p" "jawn"
    syncPairFixture "" []
    { SHA := "1", Prev := "", Next := "2", Branch := "Branch1", MR := "" }
    [{ SHA := "2", Prev := "1", Next := "", Branch := "Branch2", MR := "" }]
    [] [.git ["checkout", "Branch1"]] ⟨false, none⟩ ⟨false, none⟩ "boom"
    rfl (by decide) rfl (by decide),
   first_error_aborts.2.2.2.1 syncGitFetchFail updateApiFixture "p" "jawn"
    syncPairFixture "nofetch" rfl,
   first_error_aborts.2.2.2.2.1 syncGitBehind apiCreateFail "p" "jawn"
    syncPairFixture "" []
    { SHA := "1", Prev := "", Next := "2", Branch := "Branch1", MR := "" }
    [{ SHA := "2", Prev := "1", Next := "", Branch := "Branch2", MR := "" }]
    [.git ["checkout", "Branch1"], .git ["status", "-uno"], .git ["pull"],
     .git ["ls-remote", "--exit-code", "--heads", "origin", "jawn"],
     .git ["push", "--set-upstream", "origin", "Branch1"],
     .git ["checkout", "Branch2"], .git ["status", "-uno"], .git ["pull"],
     .git ["push", "--set-upstream", "origin", "Branch2"]]
    [] [.api (.createMR "p" "Branch1" "jawn" "" "")]
    ⟨false, some "jawn"⟩ ⟨false, some "jawn"⟩ ⟨false, some "jawn"⟩ "apiboom"
    rfl (by decide) (by decide) rfl (by decide),
   first_error_aborts.2.2.2.2.2 syncGitDivergedPushFail updateApiFixture "p"
    "jawn" syncPairFixture ""
    [.git ["checkout", "Branch1"], .git ["status", "-uno"],
     .git ["checkout", "Branch2"],
     .git ["rebase", "--fork-point", "--update-refs", "Branch1"],
     .git ["ls-remote", "--exit-code", "--heads", "origin", "jawn"],
     .git ["push", "--set-upstream", "origin", "Branch1"],
     .git ["checkout", "Branch2"], .git ["status", "-uno"],
     .git ["push", "--set-upstream", "origin", "Branch2"]]
    [.api (.createMR "p" "Branch1" "jawn" "" ""),
     .api (.createMR "p" "Branch2" "Branch1" "" "")]
    ⟨true, some "jawn"⟩ ⟨true, some "jawn"⟩ "pushboom"
    rfl (by decide) (by decide) rfl rfl⟩

end GlabStack
